import Mathlib

/-!
# Verification of the SLOTHY heuristic driver and AArch64 frontend

This development gives a shallow embedding, in Lean 4, of the parts of the
SLOTHY superoptimizer relevant to its specification:

* the AArch64 frontend of `targets/aarch64/aarch64_neon.py`
  (loop recognition, the per-variant instruction parsers and emitters,
  the grouped load/store operand combinations, the vins pair-fusion
  callback), and
* the heuristic driver of `slothy/heuristics.py`
  (binary search over stalls, the periodic and halving heuristics,
  the configuration-copy discipline).

External collaborators (the constraint solver `SlothyBase`, the dataflow
graph builder `DataFlowGraph`, `AsmHelper`, `binary_search`) are not part
of the two embedded modules; functions that call them are embedded as
higher-order functions taking those collaborators as parameters.
Python string/regex processing is embedded at token granularity: a source
line is represented by a structured value recording exactly the
information the matched regex groups would carry.
-/

namespace SlothyModel

/-- Register classes of the AArch64 target (`class RegisterType` in
`aarch64_neon.py`). -/
inductive RegisterType where
  | GPR
  | Neon
  | StackNeon
  | StackGPR
  | StackAny
  | Flags
deriving DecidableEq, Repr

/-- `vregs_normal = [ f"v{i}" for i in range(32) ]` from
`RegisterType.list_registers`: the Neon register pool `v0`..`v31`. -/
def vregs_normal : List String :=
  (List.range 32).map (fun i => "v" ++ toString i)

/-- `gprs_normal = [ f"x{i}" for i in range(31) ] + ["sp"]` from
`RegisterType.list_registers`. -/
def gprs_normal : List String :=
  (List.range 31).map (fun i => "x" ++ toString i) ++ ["sp"]

/-! ## Structured assembly lines for the `Instruction` subclass parsers

Each `Instruction` subclass in `aarch64_neon.py` parses a raw text line
with its own regular expression.  We embed a line at the granularity of
the regex match: a constructor per syntactic family, whose fields are the
named groups the corresponding regex captures.  Distinct constructors
reflect that the families' regexes are mutually exclusive on the lines
the tool processes. -/

/-- A structured source line, as seen by the `Instruction` subclass
parsers of `aarch64_neon.py`.

* `ldst` is a line `"<mnem> <dest>, [<addr>{, #<addroffset>}]{!}{, #<postinc>}"`,
  the shape matched by `x_ldr.parse`, `x_str.parse`, `vldr.parse`
  (groups `dest`, `addr`, `addroffset`, `writeback`, `postinc`).
* `ld4Line`/`ld2Line`/`st4Line` are the grouped structure load/store
  lines `"ld4 {<out0>.<dt0>,...}, [<reg>], #<increment>"` etc.
* `vinsLine` is `"vins <dst>, <src>, <lane>"`.
* `rawLine` is any other line. -/
inductive AsmLine where
  | ldst (mnem dest addr : String) (addroffset : Option String)
         (writeback : Bool) (postinc : Option String)
  | ld4Line (out0 out1 out2 out3 dt0 dt1 dt2 dt3 reg : String)
            (increment : Option String)
  | ld2Line (out0 out1 dt0 dt1 reg increment : String)
  | st4Line (out0 out1 out2 out3 dt0 dt1 dt2 dt3 reg increment : String)
  | vinsLine (dst src lane : String)
  | rawLine (s : String)
deriving DecidableEq, Repr

/-- The result of one `Instruction` subclass's `parse`: the variant name
together with the operand lists and (for loads/stores) the combination
restrictions the parse installs. -/
structure Inst where
  name : String
  args_in : List String := []
  args_out : List String := []
  args_in_out : List String := []
  args_in_combinations : List (List Nat × List (List String)) := []
  args_out_combinations : List (List Nat × List (List String)) := []
  increment : Option String := none
  lane : Option String := none
deriving DecidableEq, Repr

/-- `ld4.parse`: `self.args_out_combinations =
[([0,1,2,3], [[f"v{i}",...,f"v{i+3}"] for i in range(0,28)])]`. -/
def ld4_args_out_combinations : List (List Nat × List (List String)) :=
  [([0, 1, 2, 3],
    (List.range 28).map (fun i =>
      ["v" ++ toString i, "v" ++ toString (i + 1),
       "v" ++ toString (i + 2), "v" ++ toString (i + 3)]))]

/-- `ld2.parse`: `self.args_out_combinations =
[([0,1], [[f"v{i}", f"v{i+1}"] for i in range(0,30)])]`. -/
def ld2_args_out_combinations : List (List Nat × List (List String)) :=
  [([0, 1],
    (List.range 30).map (fun i =>
      ["v" ++ toString i, "v" ++ toString (i + 1)]))]

/-- `st4.parse`: `self.args_in_combinations =
[([1,2,3,4], [[f"v{i}",...,f"v{i+3}"] for i in range(0,28)])]`. -/
def st4_args_in_combinations : List (List Nat × List (List String)) :=
  [([1, 2, 3, 4],
    (List.range 28).map (fun i =>
      ["v" ++ toString i, "v" ++ toString (i + 1),
       "v" ++ toString (i + 2), "v" ++ toString (i + 3)]))]

/-- `x_str.parse`: on a `str` load/store-shaped line it sets
`args_in = [gpr, addr]`, `args_out = []`, `args_in_out = []`
(the address register is an input only; the comment in the source notes
that post-increment is deliberately not modelled as a write). -/
def x_str_tryparse : AsmLine → Option Inst
  | .ldst "str" dest addr addroffset writeback postinc =>
    some { name := "x_str"
           args_in := [dest, addr]
           args_out := []
           args_in_out := []
           increment :=
             if writeback then addroffset
             else if postinc ≠ none ∧ postinc ≠ some "" then postinc
             else none }
  | _ => none

/-- `x_ldr.parse`: on an `ldr` load/store-shaped line it sets
`args_in = [addr]`, `args_out = [gpr]`, `args_in_out = []`. -/
def x_ldr_tryparse : AsmLine → Option Inst
  | .ldst "ldr" dest addr addroffset writeback postinc =>
    some { name := "x_ldr"
           args_in := [addr]
           args_out := [dest]
           args_in_out := []
           increment :=
             if writeback then addroffset
             else if postinc ≠ none ∧ postinc ≠ some "" then postinc
             else none }
  | _ => none

/-- `vstr.parse` begins with
`raise Instruction.ParsingException("Disabled for now")`: it never
succeeds. -/
def vstr_tryparse : AsmLine → Option Inst
  | _ => none

/-- `vldr.parse`: same regex as `x_ldr.parse` (an `ldr` line), setting
`args_in = [addr]`, `args_out = [vec]`. -/
def vldr_tryparse : AsmLine → Option Inst
  | .ldst "ldr" dest addr addroffset writeback postinc =>
    some { name := "vldr"
           args_in := [addr]
           args_out := [dest]
           args_in_out := []
           increment :=
             if writeback then addroffset
             else if postinc ≠ none ∧ postinc ≠ some "" then postinc
             else none }
  | _ => none

/-- `vins.parse`: `args_in = [src]`, `args_in_out = [dst]`, records the
lane. -/
def vins_tryparse : AsmLine → Option Inst
  | .vinsLine dst src lane =>
    some { name := "vins"
           args_in := [src]
           args_out := []
           args_in_out := [dst]
           lane := some lane }
  | _ => none

/-- `st4.parse`: `args_in = [reg, out0..out3]` with the consecutive-tuple
combination restriction on positions 1..4. -/
def st4_tryparse : AsmLine → Option Inst
  | .st4Line out0 out1 out2 out3 _ _ _ _ reg increment =>
    some { name := "st4"
           args_in := [reg, out0, out1, out2, out3]
           args_out := []
           args_in_out := []
           args_in_combinations := st4_args_in_combinations
           increment := some increment }
  | _ => none

/-- `ld4.parse`: `args_out = [out0..out3]`, `args_in_out = [reg]`, with
the consecutive-tuple combination restriction on positions 0..3. -/
def ld4_tryparse : AsmLine → Option Inst
  | .ld4Line out0 out1 out2 out3 _ _ _ _ reg increment =>
    some { name := "ld4"
           args_in := []
           args_out := [out0, out1, out2, out3]
           args_in_out := [reg]
           args_out_combinations := ld4_args_out_combinations
           increment := increment }
  | _ => none

/-- `ld2.parse`: `args_in = [reg]`, `args_out = [out0, out1]`, with the
consecutive-pair combination restriction on positions 0..1. -/
def ld2_tryparse : AsmLine → Option Inst
  | .ld2Line out0 out1 _ _ reg increment =>
    some { name := "ld2"
           args_in := [reg]
           args_out := [out0, out1]
           args_in_out := []
           args_out_combinations := ld2_args_out_combinations
           increment := some increment }
  | _ => none

/-- The variants tried by `Instruction.parser`, in class-definition order
(the order of `Instruction.__subclasses__()`), restricted to the
fragment embedded here: `x_str` (line 1547), `x_ldr` (1629),
`vstr` (1711), `vldr` (1794), `vins` (1876), `st4` (1926), `ld4` (1968),
`ld2` (2013). -/
def parserVariants : List (String × (AsmLine → Option Inst)) :=
  [("x_str", x_str_tryparse),
   ("x_ldr", x_ldr_tryparse),
   ("vstr", vstr_tryparse),
   ("vldr", vldr_tryparse),
   ("vins", vins_tryparse),
   ("st4", st4_tryparse),
   ("ld4", ld4_tryparse),
   ("ld2", ld2_tryparse)]

/-- The accumulation loop of `Instruction.parser`: iterate through the
variant classes, calling each one's `parse`; collect every successful
parse into `insts` and every failure into the exception list. -/
def parserLoop (line : AsmLine) :
    List (String × (AsmLine → Option Inst)) → List Inst × List String
  | [] => ([], [])
  | v :: vs =>
    let rest := parserLoop line vs
    match v.2 line with
    | some i => (i :: rest.1, rest.2)
    | none => (rest.1, v.1 :: rest.2)

/-- `Instruction.parser(src)`: run every variant's parser; if no variant
succeeds (`len(insts) == 0`) raise a `ParsingException` (embedded as
`none`); otherwise return the list of *all* successful parses. -/
def Instruction.parserM (line : AsmLine) : Option (List Inst) :=
  let res := parserLoop line parserVariants
  if res.1.isEmpty then none else some res.1

/-! ## Loop recognition (`Loop.extract` in `aarch64_neon.py`)

`Loop.extract` scans the source line by line with a three-state machine:
state 0 looks for the line matching `^\s*(?P<label>\w+)\s*:(?P<remainder>.*)$`
with the requested label (the remainder after the colon is re-processed as
the current line); state 1 collects body lines until one matches
`^\s*subs\s+(?P<reg0>\w+),\s+(?P<reg1>\w+),\s+(?P<imm>.+)`; state 2
collects further body lines until one matches
`^\s*(cbnz|bnz)\s+\w*,*\s*{lbl}`; the rest is the postamble.  If state 3
is never reached the function raises `Couldn't identify loop`.

A line is embedded as a constructor per regex family; a label line
carries its post-colon remainder as a nested line, mirroring the
`keep = True` re-processing in the source. -/

/-- A source line as seen by `Loop.extract`'s three regexes. -/
inductive SrcLine where
  /-- a line `^\s*<name>\s*:<rem>$` matching the label regex -/
  | labelLine (name : String) (rem : SrcLine)
  /-- a line matching the `subs` countdown regex -/
  | subsLine (reg0 reg1 imm : String)
  /-- a line matching the `cbnz|bnz` branch regex, with branch target -/
  | cbnzLine (reg target : String)
  /-- any other line -/
  | plain (s : String)
deriving DecidableEq, Repr

/-- State-0 test: does this line match the label regex with label `lbl`?
Returns the remainder group on success. -/
def matchLabel (lbl : String) : SrcLine → Option SrcLine
  | .labelLine n rem => if n = lbl then some rem else none
  | _ => none

/-- State-1 test: the `subs` regex, returning groups `(reg0, reg1, imm)`. -/
def matchSubs : SrcLine → Option (String × String × String)
  | .subsLine r0 r1 imm => some (r0, r1, imm)
  | _ => none

/-- State-2 test: the `cbnz|bnz` regex.  The label is interpolated into
the regex without an end anchor, so the branch target only needs `lbl`
as a prefix (character-wise). -/
def matchCbnz (lbl : String) : SrcLine → Bool
  | .cbnzLine _ tgt => lbl.toList.isPrefixOf tgt.toList
  | _ => false

/-- State 0 of `Loop.extract`: accumulate `pre` until the label line is
found; return `(pre, remainder, rest)`. -/
def findLabel (lbl : String) : List SrcLine → Option (List SrcLine × SrcLine × List SrcLine)
  | [] => none
  | l :: ls =>
    match matchLabel lbl l with
    | some rem => some ([], rem, ls)
    | none =>
      match findLabel lbl ls with
      | some (pre, rem, rest) => some (l :: pre, rem, rest)
      | none => none

/-- State 1 of `Loop.extract`: accumulate body lines until the `subs`
line; the `subs` line itself is consumed, its groups recorded. -/
def findSubs : List SrcLine → Option (List SrcLine × (String × String × String) × List SrcLine)
  | [] => none
  | l :: ls =>
    match matchSubs l with
    | some regs => some ([], regs, ls)
    | none =>
      match findSubs ls with
      | some (b, regs, rest) => some (l :: b, regs, rest)
      | none => none

/-- State 2 of `Loop.extract`: accumulate body lines until the
`cbnz`/`bnz` line naming the loop label; that line is consumed. -/
def findCbnz (lbl : String) : List SrcLine → Option (List SrcLine × List SrcLine)
  | [] => none
  | l :: ls =>
    if matchCbnz lbl l then some ([], ls)
    else
      match findCbnz lbl ls with
      | some (b, post) => some (l :: b, post)
      | none => none

/-- The value returned by `Loop.extract`:
`(pre, body, post, lbl, (reg0, reg1, imm))` (we drop the echoed label). -/
structure LoopExtractResult where
  pre : List SrcLine
  body : List SrcLine
  post : List SrcLine
  reg0 : String
  reg1 : String
  imm : String
deriving DecidableEq, Repr

/-- `Loop.extract(source, lbl)`.  The label line's remainder is pushed
back in front of the remaining lines (the `keep = True` mechanism), so
it participates in the body search; an exhausted scan in any state below
3 raises (embedded as `none`). -/
def Loop.extract (source : List SrcLine) (lbl : String) : Option LoopExtractResult := do
  let (pre, rem, rest) ← findLabel lbl source
  let (body1, regs, rest2) ← findSubs (rem :: rest)
  let (body2, post) ← findCbnz lbl rest2
  return ⟨pre, body1 ++ body2, post, regs.1, regs.2.1, regs.2.2⟩

/-! ## The `vins` pair-fusion callback (`vins_parsing_cb`)

After DFG construction, the callback attached to `vins` may demote the
in/out destination vector to a pure output when this `vins` and its
unique in/out successor together overwrite both 64-bit lanes. -/

/-- The mutable state of a `vins` instruction node that the callback
reads and writes. -/
structure VinsInst where
  args_in : List String
  args_out : List String
  args_in_out : List String
  num_out : Nat
  num_in_out : Nat
  arg_types_out : List RegisterType
  arg_types_in_out : List RegisterType
  args_out_restrictions : List (Option (List String))
  args_in_out_restrictions : List (Option (List String))
  lane : String
  detected_vins_pair : Bool
deriving DecidableEq, Repr

/-- An instruction held by a DFG successor record: either a `vins` node
(whose state the callback inspects via `isinstance(r.inst, vins)`) or
any other instruction. -/
inductive DFGInst where
  | vinsNode (i : VinsInst)
  | otherNode
deriving DecidableEq, Repr

/-- The part of the DFG node `t` that `vins_parsing_cb` reads:
`t.dst_in_out[0]`, the list of consumers of the in/out operand. -/
structure NodeView where
  dst_in_out_head : List DFGInst
deriving DecidableEq, Repr

/-- `{r.inst.lane, inst.lane} == {'0','1'}` as a Python set equality:
true exactly when the two lanes are `0` and `1` in either order. -/
def lanesComplementary (a b : String) : Bool :=
  (a = "0" && b = "1") || (a = "1" && b = "0")

/-- The body of `vins_parsing_cb` (the `core` closure): returns the
(possibly mutated) instruction state together with the changed flag.
The successor check requires `t.dst_in_out[0]` to be a one-element list
whose instruction is a `vins` with the same `args_in_out` and a
complementary lane; the mutation turns the in/out operand into a pure
output (`args_out = [args_in_out[0]]`, embedded as `take 1`). -/
def vins_parsing_cb (inst : VinsInst) (t : NodeView) : VinsInst × Bool :=
  if inst.detected_vins_pair then (inst, false)
  else
    let succ : Option VinsInst :=
      match t.dst_in_out_head with
      | [.vinsNode r] =>
        if r.args_in_out = inst.args_in_out ∧ lanesComplementary r.lane inst.lane then
          some r
        else none
      | _ => none
    match succ with
    | none => (inst, false)
    | some _ =>
      ({ inst with
          num_out := 1
          args_out := inst.args_in_out.take 1
          arg_types_out := [RegisterType.Neon]
          args_out_restrictions := inst.args_in_out_restrictions
          num_in_out := 0
          args_in_out := []
          arg_types_in_out := []
          args_in_out_restrictions := []
          detected_vins_pair := true },
       true)

/-! ## Configuration and the heuristic driver (`slothy/heuristics.py`)

`Config` is embedded with the fields the driver reads or writes.  Python
passes configurations by reference and `conf.copy()` deep-copies; we make
the aliasing explicit: a driver function that may mutate the caller's
configuration object is embedded so that it *returns* the caller object's
final state alongside its result, while mutations of `conf.copy()`
appear as functional updates of a `let`-bound copy. -/

/-- The `sw_pipelining` sub-configuration. -/
structure SWPipelining where
  enabled : Bool
  unroll : Nat
  halving_heuristic : Bool
  halving_heuristic_periodic : Bool
  minimize_overlapping : Bool
  allow_pre : Bool
  allow_post : Bool
  optimize_preamble : Bool
  optimize_postamble : Bool
deriving DecidableEq, Repr

/-- The `constraints` sub-configuration (binary-search parameters and
freeze toggles). -/
structure Constraints where
  stalls_allowed : Nat
  stalls_minimum_attempt : Nat
  stalls_first_attempt : Nat
  stalls_maximum_attempt : Nat
  stalls_precision : Nat
  allow_reordering : Bool
  allow_renaming : Bool
deriving DecidableEq, Repr

/-- The driver-visible configuration object. -/
structure Config where
  sw_pipelining : SWPipelining
  constraints : Constraints
  inputs_are_outputs : Bool
  outputs : List String
  has_objective : Bool
  ignore_objective : Bool
  variable_size : Bool
  split_heuristic : Bool
  split_heuristic_repeat : Nat
deriving DecidableEq, Repr

/-- Python set union `a.union(b)` on outputs modelled over lists:
keep `a` and append the members of `b` not already present. -/
def pyUnion (a b : List String) : List String :=
  a ++ b.filter (fun x => !a.contains x)

/-- The result record fields of `SlothyBase` used by the driver. -/
structure CoreResult where
  code : List String
  stalls : Nat
deriving DecidableEq, Repr

/-- The state of a `SlothyBase` core after a successful `optimize`:
its result and its configuration's `ignore_objective` flag (the one
field of `core.config` the driver later mutates). -/
structure Core where
  result : CoreResult
  cfg_ignore_objective : Bool
deriving DecidableEq, Repr

/-- `Heuristics.optimize_binsearch_external` (the `flexible=True` path).
`bsearchCore` stands for the call to `Heuristics.optimize_binsearch_core`
(which wraps the external `binary_search`/`SlothyBase`), and `retry` for
`core.retry()` after `core.config.ignore_objective = False`.  The binary
search runs on `c = conf.copy()` with `c.ignore_objective = True`; with
an objective, the driver retries at the found minimum and falls back to
`first_result` when the retry fails. -/
def optimize_binsearch_external
    (bsearchCore : List String → Config → Nat × Core)
    (retry : Core → Bool × Core)
    (source : List String) (conf : Config) : CoreResult :=
  let c := { conf with ignore_objective := true }
  let r := bsearchCore source c
  let core := r.2
  if !conf.has_objective then core.result
  else
    let first_result := core.result
    let core := { core with cfg_ignore_objective := false }
    let r2 := retry core
    if !r2.1 then first_result else r2.2.result

/-- The doubling loop of `Heuristics.optimize_binsearch_internal`:
attempt `optimize` with `stalls_allowed = cur` on a fresh copy with
`variable_size = True`; on failure set `cur = max(1, cur*2)` and raise
`No solution found` once `cur` exceeds `stalls_maximum_attempt`. -/
def optimize_binsearch_internal_loop
    (optimize : List String → Config → Option CoreResult)
    (source : List String) (conf : Config) (cur : Nat) :
    Option (Nat × CoreResult) :=
  let c := { conf with
              variable_size := true
              constraints.stalls_allowed := cur }
  match optimize source c with
  | some res => some (res.stalls, res)
  | none =>
    let next := max 1 (cur * 2)
    if next > conf.constraints.stalls_maximum_attempt then none
    else optimize_binsearch_internal_loop optimize source conf next
termination_by conf.constraints.stalls_maximum_attempt + 1 - cur
decreasing_by
  have h1 : cur < max 1 (cur * 2) := by
    rcases Nat.eq_zero_or_pos cur with h0 | h0
    · simp [h0]
    · omega
  omega

/-- `Heuristics.optimize_binsearch_internal`: run the doubling loop; with
an objective, re-optimize at the found minimum (`variable_size = False`,
`stalls_allowed = min_stalls`, `retry=True`, via `optimizeRetry`), and
fall back to `first_result` when that fails. -/
def optimize_binsearch_internal
    (optimize optimizeRetry : List String → Config → Option CoreResult)
    (source : List String) (conf : Config) : Option CoreResult := do
  let (min_stalls, first_result) ←
    optimize_binsearch_internal_loop optimize source conf
      conf.constraints.stalls_first_attempt
  if !conf.has_objective then pure first_result
  else
    let c := { conf with
                variable_size := false
                constraints.stalls_allowed := min_stalls }
    match optimizeRetry source c with
    | none => pure first_result
    | some res => pure res

/-! ### The exhaustion handler of `Heuristics.optimize_binsearch_core`

When `binary_search` raises `BinarySearchLimitException`, the handler
logs the original source (via `Heuristics._dump(..., err=True,
no_comments=True)`) and the configuration (`conf.log(logger.error)`),
and then executes
`err_file = self.config.log_dir + f"/{logger_name}_ERROR.s"` —
but `optimize_binsearch_core` is a plain function whose scope binds only
`source`, `logger`, `conf`, `kwargs`, `logger_name`, `last_successful`
and `try_with_stalls`; the name `self` is unbound, so evaluating it
raises `NameError` before the dump file is ever opened. -/

/-- The names bound in the scope of `optimize_binsearch_core` when the
`except BinarySearchLimitException` block runs. -/
def binsearchCoreScope : List String :=
  ["source", "logger", "conf", "kwargs",
   "logger_name", "last_successful", "try_with_stalls"]

/-- Python name resolution in that scope: `none` means the name
resolves, `some e` that evaluating it raises the error `e`. -/
def lookupName (n : String) : Option String :=
  if binsearchCoreScope.contains n then none
  else some ("NameError: name " ++ n ++ " is not defined")

/-- Observable effects of the exhaustion handler.  `raised = none` means
the block ran to completion; `raised = some e` that it aborted with the
exception `e`. -/
structure ExhaustionTrace where
  logged_original_source : Bool
  logged_config : Bool
  dump_written : Bool
  raised : Option String
deriving DecidableEq, Repr

/-- The `except BinarySearchLimitException` block of
`optimize_binsearch_core`, statement by statement: two `logger.error`
messages, the source dump, the configuration log, then the evaluation of
`self.config.log_dir`, which must resolve the name `self` before any
file is opened. -/
def binsearch_exhaustion_handler : ExhaustionTrace :=
  let logged_src := true
  let logged_cfg := true
  match lookupName "self" with
  | some e => ⟨logged_src, logged_cfg, false, some e⟩
  | none => ⟨logged_src, logged_cfg, true, none⟩

/-! ### The halving heuristic (`Heuristics._periodic_halving`) -/

/-- `Heuristics._periodic_halving(body, logger, conf)`.  External
collaborators appear as parameters: `dfgInputs body c` is
`DFG(body, ..., DFGConfig(c)).inputs`, `linearOpt body c` is
`Heuristics.linear(body, conf=c)`, `binsearchCode body c` is
`Heuristics.optimize_binsearch(body, conf=c).code`, and `reduce` is
`AsmHelper.reduce_source`.  Returns
`(preamble, kernel, postamble, num_exceptional_iterations)`. -/
def periodic_halving
    (dfgInputs : List String → Config → List String)
    (linearOpt : List String → Config → List String)
    (binsearchCode : List String → Config → List String)
    (reduce : List String → List String)
    (body : List String) (conf : Config) :
    List String × List String × List String × Nat :=
  -- kernel_deps = DFG(body, ..., DFGConfig(conf.copy())).inputs
  let kernel_deps := dfgInputs body conf
  -- First step: optimize the loop kernel without software pipelining.
  let c1 := { conf with
               sw_pipelining.enabled := false
               inputs_are_outputs := true
               outputs := pyUnion conf.outputs kernel_deps }
  let kernel := linearOpt body c1
  -- kernel = AsmHelper.reduce_source(kernel); split in half and rotate.
  let kernel := reduce kernel
  let kernel_lenh := kernel.length / 2
  let kernel_low := kernel.take kernel_lenh
  let kernel_high := kernel.drop kernel_lenh
  let kernelBA := kernel_high ++ kernel_low
  let preamble := kernel_low
  let postamble := kernel_high
  -- kernel_deps is recomputed twice; the second computation wins.
  let _kernel_deps2 :=
    dfgInputs kernel_high
      { conf with outputs := kernel_deps, inputs_are_outputs := false }
  let kernel_deps3 :=
    dfgInputs kernelBA { conf with inputs_are_outputs := true }
  -- Second step: re-optimize the rotated kernel [B;A].
  let kernelFinal :=
    if conf.sw_pipelining.halving_heuristic_periodic then
      binsearchCode kernelBA
        { conf with
            inputs_are_outputs := true
            sw_pipelining.minimize_overlapping := false
            sw_pipelining.enabled := true
            sw_pipelining.allow_pre := false
            sw_pipelining.allow_post := false }
    else
      linearOpt kernelBA
        { conf with
            outputs := kernel_deps3
            sw_pipelining.enabled := false }
  (preamble, kernelFinal, postamble, 1)

/-! ### Caller-visible configuration effects (`conf` aliasing)

For each driver function we embed the final state of the configuration
object the *caller* passed in.  Mutations of `conf.copy()` objects do not
reach the caller; direct attribute assignments on `conf` do. -/

/-- `Heuristics.optimize_binsearch_core` only ever mutates
`c = conf.copy()` inside `try_with_stalls`; the caller's object is left
as it was. -/
def binsearch_core_conf_effect (conf : Config) (stalls : Nat) : Config :=
  let _c := { conf with constraints.stalls_allowed := stalls }
  conf

/-- Caller-visible configuration effect of
`Heuristics.optimize_binsearch_external` / `_internal`: both only write
to `c = conf.copy()` objects. -/
def binsearch_conf_effect (conf : Config) : Config :=
  let _c := { conf with ignore_objective := true }
  conf

/-- Caller-visible configuration effect of `Heuristics._split_inner`:
when `split_heuristic_repeat > 0`, the dry-run pass executes
`conf.constraints.allow_reordering = False` and
`conf.constraints.allow_renaming = False` directly on its argument;
the later `conf = orig_conf.copy()` only rebinds the local name, so the
caller's object keeps the cleared flags. -/
def split_inner_conf_effect (conf : Config) : Config :=
  if conf.split_heuristic_repeat > 0 then
    { conf with
        constraints.allow_reordering := false
        constraints.allow_renaming := false }
  else conf

/-- Caller-visible configuration effect of `Heuristics._split`: it
immediately copies (`c = conf.copy()`) and passes only `c` on (in
particular `_split_inner` mutates `c`, not the caller's object). -/
def split_conf_effect (conf : Config) : Config :=
  let c := conf
  let _c2 := split_inner_conf_effect c
  conf

/-- Caller-visible configuration effect of `Heuristics.linear`: it
forwards `conf` unmutated to `optimize_binsearch` (no split) or to
`_split` (which copies). -/
def linear_conf_effect (conf : Config) : Config :=
  if !conf.split_heuristic then binsearch_conf_effect conf
  else split_conf_effect conf

/-- Caller-visible configuration effect of `Heuristics.periodic`
(`dfgOutputs body conf` stands for
`DFG(body, ..., DFGConfig(conf.copy())).outputs`): when
`conf.inputs_are_outputs` is set, the source executes
`conf.outputs = dfg.outputs` and `conf.inputs_are_outputs = False`
directly on the caller's object, *without* copying first; every other
mutation in `periodic` happens on `c = conf.copy()` objects. -/
def periodic_conf_effect
    (dfgOutputs : List String → Config → List String)
    (body : List String) (conf : Config) : Config :=
  if conf.inputs_are_outputs then
    { conf with
        outputs := dfgOutputs body conf
        inputs_are_outputs := false }
  else conf

/-! ## `AArch64Instruction` patterns: parse and write

`AArch64Instruction` subclasses declare a pattern string such as
`"eor <Wd>, <Wa>, <Wb>"`.  `_unfold_pattern` compiles it to a regex in
which a placeholder `<Xa>` becomes
`([xX](?P<raw_Xa>[0-9][0-9]?)|[xX]<(?P<symbol_Xa>\w+)>)`, `<dt>`/`<dtI>`
become datatype alternations, `<imm>` becomes `(?P<imm>(\w|\s|#|=|,)+)`
and `<index>` becomes `(?P<index>[0-9]+)`.  We embed the pattern as a
token list and a source line as the corresponding list of matched
fragments; whitespace flexibility of the regex is absorbed by the token
granularity. -/

/-- One token of an `AArch64Instruction` pattern string. -/
inductive PatTok where
  /-- literal pattern text (mnemonic, commas, brackets, dots) -/
  | lit (s : String)
  /-- a register placeholder `<name>`; the first character of `name` is
  the register letter (`X`, `W`, `V`, `Q`) -/
  | reg (name : String)
  /-- `<dt>` (`idx = none`) or `<dtI>` (`idx = some I`) -/
  | dtTok (idx : Option Nat)
  /-- `<imm>` -/
  | immP
  /-- `<index>` -/
  | indexP
deriving DecidableEq, Repr

/-- One fragment of an assembly line, at the granularity of the pattern
regex: a register written concretely (`x12`), a register written
symbolically (`x<tmp>`, capturing the symbol without the letter), a bare
word that is neither (as produced by the emitter for symbolic operands),
a datatype suffix, an immediate, or a lane index. -/
inductive LineTok where
  | lit (s : String)
  | regNum (letter : Char) (digits : String)
  | regSym (letter : Char) (sym : String)
  | word (s : String)
  | dt (s : String)
  | immTok (s : String)
  | indexTok (n : Nat)
deriving DecidableEq, Repr

/-- Python `s[0]`: the first character, `none` on the empty string
(where Python would raise `IndexError`). -/
def pyFirstChar (s : String) : Option Char := s.toList.head?

/-- Python `s[1:]`. -/
def pyTail (s : String) : String := String.mk (s.toList.drop 1)

/-- Python `c + s` for a single character `c`. -/
def pyCons (c : Char) (s : String) : String := String.mk (c :: s.toList)

/-- Python `s.lower()`, at character granularity. -/
def pyLower (s : String) : String := String.mk (s.toList.map Char.toLower)

/-- Python `s.upper()`, at character granularity. -/
def pyUpper (s : String) : String := String.mk (s.toList.map Char.toUpper)

/-- Python `s.isdigit()`: nonempty and all digits. -/
def isDigitStr (s : String) : Bool :=
  !s.toList.isEmpty && s.toList.all Char.isDigit

/-- The language of the raw-register capture `[0-9][0-9]?`: one or two
digits. -/
def isDigits12 (s : String) : Bool :=
  (s.toList.length = 1 || s.toList.length = 2) && s.toList.all Char.isDigit

/-- A `\w` character. -/
def isWordChar (c : Char) : Bool := c.isAlphanum || c = '_'

/-- The language of the symbol capture `\w+`. -/
def isWordStr (s : String) : Bool :=
  !s.toList.isEmpty && s.toList.all isWordChar

/-- A character allowed by the `<imm>` regex `(\w|\s|#|=|,)+`
(whitespace represented by the blank). -/
def isImmChar (c : Char) : Bool :=
  isWordChar c || c = ' ' || c = '#' || c = '=' || c = ','

/-- The language of the `<imm>` capture. -/
def isImmStr (s : String) : Bool :=
  !s.toList.isEmpty && s.toList.all isImmChar

/-- The eight datatype letters `B|H|S|D|b|h|s|d`. -/
def dtLetters : List String := ["B", "H", "S", "D", "b", "h", "s", "d"]

/-- The language of a plain `<dt>` in an `AArch64Instruction` pattern:
`(?:2|4|8|16)(?:B|H|S|D|b|h|s|d)`. -/
def dtStringsStrict : List String :=
  (["2", "4", "8", "16"].map (fun n => dtLetters.map (fun c => n ++ c))).flatten

/-- The language of an indexed `<dtI>`:
`(?:|2|4|8|16)(?:B|H|S|D|b|h|s|d)` (the count may be empty). -/
def dtStringsOpt : List String :=
  (["", "2", "4", "8", "16"].map (fun n => dtLetters.map (fun c => n ++ c))).flatten

/-- Membership in the plain-`<dt>` language. -/
def isDTypeStrict (s : String) : Bool := decide (s ∈ dtStringsStrict)

/-- Membership in the indexed-`<dtI>` language. -/
def isDTypeOpt (s : String) : Bool := decide (s ∈ dtStringsOpt)

/-- The register-letter alternative `[{lower}{orig}]` generated by
`pattern_transform` for the placeholder's letter (the first character of
the operand name). -/
def matchRegLetter (name : String) (c : Char) : Bool :=
  match pyFirstChar name with
  | some pl => c = pl.toLower || c = pl
  | none => false

/-- `AArch64Instruction.infer_register_type`: `X`/`W` give GPR, `V`/`Q`
give Neon; anything else raises (embedded as `none`). -/
def infer_register_type (name : String) : Option RegisterType :=
  match pyFirstChar name with
  | some c =>
    if c.toUpper = 'X' || c.toUpper = 'W' then some RegisterType.GPR
    else if c.toUpper = 'V' || c.toUpper = 'Q' then some RegisterType.Neon
    else none
  | none => none

/-- `AArch64Instruction._to_reg`: a digit capture is prefixed with the
class's canonical letter (`x` for GPR, `v` for Neon); anything else is
kept as is. -/
def toReg (ty : RegisterType) (s : String) : String :=
  let c : Char := if ty = RegisterType.GPR then 'x' else 'v'
  if isDigitStr s then pyCons c s else s

/-- The `groupdict` of a pattern match, after the `raw_`/`symbol_` merge
done by `_build_parser`: register captures keyed by operand name, plus
the datatype, immediate and index groups. -/
structure MatchSt where
  regs : String → Option String
  dtP : Option String
  dt0 : Option String
  dt1 : Option String
  dt2 : Option String
  imm : Option String
  index : Option Nat

/-- The empty `groupdict`. -/
def initSt : MatchSt := ⟨fun _ => none, none, none, none, none, none, none⟩

/-- Record a register capture (dictionary update). -/
def setReg (st : MatchSt) (name v : String) : MatchSt :=
  { st with regs := fun n => if n = name then some v else st.regs n }

/-- Match one pattern token against one line fragment, extending the
`groupdict`.  A concrete register must carry the placeholder's letter
(either case) and one or two digits; a symbolic register must carry the
letter and a `\w+` symbol; a bare word matches no register placeholder. -/
def matchTok : PatTok → LineTok → MatchSt → Option MatchSt
  | .lit s, .lit s2, st => if s = s2 then some st else none
  | .reg name, .regNum letter d, st =>
    if matchRegLetter name letter && isDigits12 d then some (setReg st name d)
    else none
  | .reg name, .regSym letter sym, st =>
    if matchRegLetter name letter && isWordStr sym then some (setReg st name sym)
    else none
  | .dtTok none, .dt s, st =>
    if isDTypeStrict s then some { st with dtP := some s } else none
  | .dtTok (some 0), .dt s, st =>
    if isDTypeOpt s then some { st with dt0 := some s } else none
  | .dtTok (some 1), .dt s, st =>
    if isDTypeOpt s then some { st with dt1 := some s } else none
  | .dtTok (some 2), .dt s, st =>
    if isDTypeOpt s then some { st with dt2 := some s } else none
  | .immP, .immTok s, st =>
    if isImmStr s then some { st with imm := some s } else none
  | .indexP, .indexTok n, st => some { st with index := some n }
  | _, _, _ => none

/-- Match a whole pattern against a whole line (the regex is anchored at
both ends: token lists must have equal length). -/
def matchPattern : List PatTok → List LineTok → MatchSt → Option MatchSt
  | [], [], st => some st
  | p :: ps, l :: ls, st => (matchTok p l st).bind (matchPattern ps ls)
  | _, _, _ => none

/-- `self.datatype` after `AArch64Instruction.parse`: unset, a single
lowered string (plain `<dt>`), or a list (indexed `<dtI>`). -/
inductive DtVal where
  | noDt
  | one (s : String)
  | many (l : List String)
deriving DecidableEq, Repr

/-- The parsed state of an `AArch64Instruction`. -/
structure AInst where
  args_in : List String
  args_out : List String
  args_in_out : List String
  datatype : DtVal
  index : Option Nat
  immediate : Option String
deriving DecidableEq, Repr

/-- An `AArch64Instruction` variant: its pattern and operand name lists
(`inputs`, `outputs`, `in_outs`, `modifiesFlags` of `__init__`). -/
structure Variant where
  pattern : List PatTok
  inputs : List String
  outputs : List String
  in_outs : List String
  modifiesFlags : Bool
deriving DecidableEq, Repr

/-- `[s.lower()]` for a present group, `[]` otherwise. -/
def optLower (o : Option String) : List String :=
  match o with
  | some s => [pyLower s]
  | none => []

/-- The datatype assembly of `AArch64Instruction.parse`: a plain
`datatype` group wins; otherwise the indexed groups are collected in
order. -/
def buildDatatype (st : MatchSt) : DtVal :=
  match st.dtP with
  | some s => .one (pyLower s)
  | none =>
    match st.dt0 with
    | some s0 => .many ([pyLower s0] ++ optLower st.dt1 ++ optLower st.dt2)
    | none => .noDt

/-- The operand string appended for name `s`:
`AArch64Instruction._to_reg(ty, res[s])`. -/
def regValue (st : MatchSt) (name : String) : Option String := do
  let ty ← infer_register_type name
  let cap ← st.regs name
  pure (toReg ty cap)

/-- `AArch64Instruction.parse`: match the pattern, then build the
operand lists from the captures (`flags` is appended to the outputs when
the variant modifies flags) and record datatype, index and immediate. -/
def AArch64Instruction.parse (v : Variant) (line : List LineTok) : Option AInst := do
  let st ← matchPattern v.pattern line initSt
  let ain ← v.inputs.mapM (regValue st)
  let aout ← v.outputs.mapM (regValue st)
  let aio ← v.in_outs.mapM (regValue st)
  pure { args_in := ain
         args_out := aout ++ (if v.modifiesFlags then ["flags"] else [])
         args_in_out := aio
         datatype := buildDatatype st
         index := st.index
         immediate := st.imm }

/-- `self.pattern_outputs`: output names paired with their register
types, with `("flags", Flags)` appended when the variant modifies
flags. -/
def outputTys (v : Variant) : List (String × Option RegisterType) :=
  v.outputs.map (fun n => (n, infer_register_type n)) ++
  (if v.modifiesFlags then [("flags", some RegisterType.Flags)] else [])

/-- Zip operand names (with their types) against parsed operand
strings. -/
def mkTriples :
    List (String × Option RegisterType) → List String →
    List (String × String × Option RegisterType)
  | (n, ty) :: ps, a :: as2 => (n, a, ty) :: mkTriples ps as2
  | _, _ => []

/-- The list `l` built by `AArch64Instruction.write`:
`zip(args_in, pattern_inputs) + zip(args_out, pattern_outputs) +
zip(args_in_out, pattern_in_outs)`. -/
def writePairs (v : Variant) (inst : AInst) :
    List (String × String × Option RegisterType) :=
  mkTriples (v.inputs.map (fun n => (n, infer_register_type n))) inst.args_in ++
  mkTriples (outputTys v) inst.args_out ++
  mkTriples (v.in_outs.map (fun n => (n, infer_register_type n))) inst.args_in_out

/-- First pair in `l` carrying the requested placeholder name. -/
def lookupTriple :
    List (String × String × Option RegisterType) → String →
    Option (String × RegisterType)
  | [], _ => none
  | (nm, a, ty) :: rest, n =>
    if nm = n then ty.map (fun t => (a, t)) else lookupTriple rest n

/-- `AArch64Instruction._build_pattern_replacement`: a GPR argument not
starting with `x` (resp. a Neon argument not starting with `v`) is
substituted verbatim; otherwise its first letter is replaced by the
placeholder's letter, lowered.  Other register types raise (`none`). -/
def buildPatternReplacement (name : String) (ty : RegisterType) (arg : String) :
    Option String :=
  match pyFirstChar name, ty with
  | some pl, RegisterType.GPR =>
    some (if pyFirstChar arg ≠ some 'x' then arg else pyCons pl.toLower (pyTail arg))
  | some pl, RegisterType.Neon =>
    some (if pyFirstChar arg ≠ some 'v' then arg else pyCons pl.toLower (pyTail arg))
  | _, _ => none

/-- How the text substituted for a register placeholder is seen when the
emitted line is parsed again: letter followed by one or two digits is a
concrete register; everything else is a bare word (the emitter never
writes the `x<sym>` angle-bracket form). -/
def classifyRegText (s : String) : LineTok :=
  match s.toList with
  | c :: rest =>
    if !rest.isEmpty && rest.length ≤ 2 && rest.all Char.isDigit then
      .regNum c (String.mk rest)
    else .word s
  | [] => .word s

/-- Emission of one pattern token by `AArch64Instruction.write`:
literals are copied; a register placeholder is substituted from the
first matching entry of `writePairs` (the in, out, in-out zip);
datatypes are written back uppercased; the immediate and index are
substituted verbatim. -/
def substTok (v : Variant) (inst : AInst) : PatTok → Option LineTok
  | .lit s => some (.lit s)
  | .reg n => do
    let p ← lookupTriple (writePairs v inst) n
    let rep ← buildPatternReplacement n p.2 p.1
    pure (classifyRegText rep)
  | .dtTok none =>
    match inst.datatype with
    | .one s => some (.dt (pyUpper s))
    | _ => none
  | .dtTok (some i) =>
    match inst.datatype with
    | .many l => (l.get? i).map (fun s => LineTok.dt (pyUpper s))
    | _ => none
  | .immP => inst.immediate.map (fun s => LineTok.immTok s)
  | .indexP => inst.index.map (fun n => LineTok.indexTok n)

/-- `AArch64Instruction.write`: substitute every pattern token. -/
def AArch64Instruction.write (v : Variant) (inst : AInst) : Option (List LineTok) :=
  v.pattern.mapM (substTok v inst)

/-- Position-wise: every fragment standing where the pattern expects a
register is in concrete (letter+digits) form. -/
def concreteMatch : List PatTok → List LineTok → Bool
  | [], [] => true
  | .reg _ :: ps, .regNum _ _ :: ls => concreteMatch ps ls
  | .reg _ :: _, _ => false
  | _ :: ps, _ :: ls => concreteMatch ps ls
  | _, _ => false

/-- The indexed datatype group of the `groupdict`. -/
def dtField (st : MatchSt) : Nat → Option String
  | 0 => st.dt0
  | 1 => st.dt1
  | 2 => st.dt2
  | _ => none

/-- Invariant of a `groupdict` whose register captures are concrete:
every recorded group lies in the language of its regex. -/
def StOK (st : MatchSt) : Prop :=
  (∀ n d, st.regs n = some d → isDigits12 d = true) ∧
  (∀ s, st.dtP = some s → isDTypeStrict s = true) ∧
  (∀ s, st.dt0 = some s → isDTypeOpt s = true) ∧
  (∀ s, st.dt1 = some s → isDTypeOpt s = true) ∧
  (∀ s, st.dt2 = some s → isDTypeOpt s = true) ∧
  (∀ s, st.imm = some s → isImmStr s = true)

/-- Relation between a pattern token and the line fragment the emitter
produces for it, relative to the `groupdict` `st` of the original
parse: registers are re-emitted with the placeholder's lowered letter
and the captured digits, datatypes uppercased (staying in the regex
language), immediate and index verbatim. -/
def TokSpec (st : MatchSt) : PatTok → LineTok → Prop
  | .lit s, tok => tok = .lit s
  | .reg n, tok =>
    ∃ d, st.regs n = some d ∧ isDigits12 d = true ∧
      ∃ c, tok = .regNum c d ∧ matchRegLetter n c = true
  | .dtTok none, tok =>
    ∃ s, st.dtP = some s ∧ tok = .dt (pyUpper (pyLower s)) ∧
      isDTypeStrict (pyUpper (pyLower s)) = true
  | .dtTok (some i), tok =>
    ∃ s, dtField st i = some s ∧ tok = .dt (pyUpper (pyLower s)) ∧
      isDTypeOpt (pyUpper (pyLower s)) = true
  | .immP, tok => ∃ s, st.imm = some s ∧ tok = .immTok s ∧ isImmStr s = true
  | .indexP, tok => ∃ n, st.index = some n ∧ tok = .indexTok n

/-- Every register placeholder of the pattern is declared in one of the
operand name lists (true of all variants in the source: placeholders
are exactly the operands). -/
def patternCovered (v : Variant) : Bool :=
  v.pattern.all (fun p =>
    match p with
    | .reg n => v.inputs.contains n || v.outputs.contains n || v.in_outs.contains n
    | _ => true)

/-- Datatype tokens are well-formed as `_unfold_pattern` produces them:
a plain `<dt>` excludes indexed ones, indexed ones appear from index 0
upwards, and only indices 0..2 occur (`parse` only reads
`datatype0..2`). -/
def dtWF (ps : List PatTok) : Bool :=
  (!(ps.contains (PatTok.dtTok none)) ||
    ps.all (fun p => match p with | .dtTok (some _) => false | _ => true)) &&
  (!(ps.contains (PatTok.dtTok (some 1))) || ps.contains (PatTok.dtTok (some 0))) &&
  (!(ps.contains (PatTok.dtTok (some 2))) || ps.contains (PatTok.dtTok (some 1))) &&
  ps.all (fun p => match p with | .dtTok (some i) => i < 3 | _ => true)

/-! ## Concrete instances used in witnesses and counterexamples -/

/-- A small loop whose `subs` countdown is *not* immediately followed by
the `cbnz` branch: a `mov` sits between them. -/
def c2_demo_src : List SrcLine :=
  [SrcLine.labelLine "loop" (SrcLine.plain ""),
   SrcLine.plain "add x0, x0, x1",
   SrcLine.subsLine "count" "count" "#1",
   SrcLine.plain "mov x3, x4",
   SrcLine.cbnzLine "count" "loop"]

/-- The line `ldr x0, [x1]`, in the structured form seen by the
load/store parsers. -/
def c3_demo_line : AsmLine :=
  AsmLine.ldst "ldr" "x0" "x1" none false none

/-- The variant `eor_wform`: pattern `"eor <Wd>, <Wa>, <Wb>"`,
`inputs=["Wa","Wb"]`, `outputs=["Wd"]`. -/
def eor_wform : Variant :=
  { pattern := [PatTok.lit "eor", PatTok.reg "Wd", PatTok.lit ",",
                PatTok.reg "Wa", PatTok.lit ",", PatTok.reg "Wb"]
    inputs := ["Wa", "Wb"]
    outputs := ["Wd"]
    in_outs := []
    modifiesFlags := false }

/-- The variant `vadd`: pattern
`"add <Va>.<dt0>, <Vb>.<dt1>, <Vc>.<dt2>"`, `inputs=["Vb","Vc"]`,
`outputs=["Va"]`. -/
def vadd : Variant :=
  { pattern := [PatTok.lit "add", PatTok.reg "Va", PatTok.lit ".",
                PatTok.dtTok (some 0), PatTok.lit ",", PatTok.reg "Vb",
                PatTok.lit ".", PatTok.dtTok (some 1), PatTok.lit ",",
                PatTok.reg "Vc", PatTok.lit ".", PatTok.dtTok (some 2)]
    inputs := ["Vb", "Vc"]
    outputs := ["Va"]
    in_outs := []
    modifiesFlags := false }

/-- `eor w<tmp>, w1, w2`: the destination operand is symbolic. -/
def c6_sym_line : List LineTok :=
  [LineTok.lit "eor", LineTok.regSym 'w' "tmp", LineTok.lit ",",
   LineTok.regNum 'w' "1", LineTok.lit ",", LineTok.regNum 'w' "2"]

/-- `add v0.4S, v1.4S, v2.4S`: all register operands concrete. -/
def c6_concrete_line : List LineTok :=
  [LineTok.lit "add", LineTok.regNum 'v' "0", LineTok.lit ".",
   LineTok.dt "4S", LineTok.lit ",", LineTok.regNum 'v' "1",
   LineTok.lit ".", LineTok.dt "4S", LineTok.lit ",",
   LineTok.regNum 'v' "2", LineTok.lit ".", LineTok.dt "4S"]

/-- A `vins v0, x5, lane 0` node state fresh from parsing. -/
def c7_demo_inst : VinsInst :=
  { args_in := ["x5"]
    args_out := []
    args_in_out := ["v0"]
    num_out := 0
    num_in_out := 1
    arg_types_out := []
    arg_types_in_out := [RegisterType.Neon]
    args_out_restrictions := []
    args_in_out_restrictions := [none]
    lane := "0"
    detected_vins_pair := false }

/-- A DFG view in which the unique in/out successor is the matching
`vins v0, x6, lane 1`. -/
def c7_demo_view : NodeView :=
  { dst_in_out_head :=
      [DFGInst.vinsNode { c7_demo_inst with args_in := ["x6"], lane := "1" }] }

/-- A configuration with `inputs_are_outputs = True` (and otherwise
unremarkable settings). -/
def conf_demo : Config :=
  { sw_pipelining :=
      { enabled := true
        unroll := 1
        halving_heuristic := true
        halving_heuristic_periodic := false
        minimize_overlapping := true
        allow_pre := true
        allow_post := true
        optimize_preamble := false
        optimize_postamble := false }
    constraints :=
      { stalls_allowed := 0
        stalls_minimum_attempt := 0
        stalls_first_attempt := 0
        stalls_maximum_attempt := 512
        stalls_precision := 1
        allow_reordering := true
        allow_renaming := true }
    inputs_are_outputs := true
    outputs := []
    has_objective := true
    ignore_objective := false
    variable_size := false
    split_heuristic := false
    split_heuristic_repeat := 1 }

/-! # Theorems -/

/-- Helper: the successful parses collected by the `Instruction.parser`
loop are exactly the variants whose `parse` succeeds, in registration
order. -/
theorem parserLoop_fst_eq_filterMap (line : AsmLine) :
    ∀ vs : List (String × (AsmLine → Option Inst)),
      (parserLoop line vs).1 = vs.filterMap (fun v => v.2 line) := by
  intro vs
  induction vs with
  | nil => rfl
  | cons v vs ih =>
    simp only [parserLoop, List.filterMap_cons]
    cases h : v.2 line with
    | none => simpa [h] using ih
    | some i => simpa [h] using ih

/-- C3 (counterexample): on the line `ldr x0, [x1]` the parser does
*not* return a result determined by the single first-successful variant:
both `x_ldr` and `vldr` parse it, and the returned list has both, in
order — it is not the one-element list of the first success. -/
theorem C3_parser_counterexample :
    Instruction.parserM c3_demo_line =
      some [{ name := "x_ldr", args_in := ["x1"], args_out := ["x0"] },
            { name := "vldr", args_in := ["x1"], args_out := ["x0"] }] ∧
    (Instruction.parserM c3_demo_line).map List.length ≠ some 1 := by
  constructor
  · rfl
  · decide

/-- C3 (amended): `Instruction.parser` tries every variant in
registration order and returns the list of *all* successful parses
(raising, i.e. `none`, only when no variant succeeds); consumers see the
first-successful variant as the head of that list, but the result is the
full list. -/
theorem C3_parser_amended (line : AsmLine) :
    Instruction.parserM line =
      (if (parserVariants.filterMap (fun v => v.2 line)).isEmpty then none
       else some (parserVariants.filterMap (fun v => v.2 line))) := by
  simp only [Instruction.parserM, parserLoop_fst_eq_filterMap]

/-- C4: when the binary search exhausts `stalls_maximum_attempt`, the
exception handler of `Heuristics.optimize_binsearch_core` logs the
original source and the configuration, but then evaluates
`self.config.log_dir` in a scope with no `self`: it raises `NameError`
*before* the dump file is written.  The call fails (the error is not
swallowed), but no dump file ever exists. -/
theorem C4_exhaustion_handler_trace :
    binsearch_exhaustion_handler =
      { logged_original_source := true
        logged_config := true
        dump_written := false
        raised := some "NameError: name self is not defined" } := by
  rfl

/-- C9 (counterexample): the claim says the combination lists contain
exactly the consecutive-tuples over the Neon pool `v0..v31`, but the
last consecutive tuples are missing: `(v28,v29,v30,v31)` consists of
pool registers yet is not in `ld4`'s combination list (the generator
stops at `range(0,28)`), and likewise `(v30,v31)` is missing from
`ld2`'s. -/
theorem C9_combinations_counterexample :
    (∀ l ∈ ld4_args_out_combinations, ["v28", "v29", "v30", "v31"] ∉ l.2) ∧
    (∀ r ∈ ["v28", "v29", "v30", "v31"], r ∈ vregs_normal) ∧
    (∀ l ∈ ld2_args_out_combinations, ["v30", "v31"] ∉ l.2) ∧
    (∀ r ∈ ["v30", "v31"], r ∈ vregs_normal) := by
  decide

/-- C9 (amended): for every successfully parsed `ld4`/`ld2`/`st4`, the
combination list covers the grouped operand positions and contains
exactly the consecutive Neon tuples starting at `v_i` for `i < 28`
(4-register forms) resp. `i < 30` (`ld2`) — one short of all consecutive
tuples in the pool — and every register named in them lies in the pool
`v0..v31`. -/
theorem C9_combinations_amended :
    (∀ line inst, ld4_tryparse line = some inst →
       inst.args_out_combinations = ld4_args_out_combinations) ∧
    (∀ line inst, ld2_tryparse line = some inst →
       inst.args_out_combinations = ld2_args_out_combinations) ∧
    (∀ line inst, st4_tryparse line = some inst →
       inst.args_in_combinations = st4_args_in_combinations) ∧
    (∀ pair ∈ ld4_args_out_combinations, pair.1 = [0, 1, 2, 3] ∧
       ∀ l, l ∈ pair.2 ↔ ∃ i, i < 28 ∧
         l = ["v" ++ toString i, "v" ++ toString (i + 1),
              "v" ++ toString (i + 2), "v" ++ toString (i + 3)]) ∧
    (∀ pair ∈ ld2_args_out_combinations, pair.1 = [0, 1] ∧
       ∀ l, l ∈ pair.2 ↔ ∃ i, i < 30 ∧
         l = ["v" ++ toString i, "v" ++ toString (i + 1)]) ∧
    (∀ pair ∈ st4_args_in_combinations, pair.1 = [1, 2, 3, 4] ∧
       ∀ l, l ∈ pair.2 ↔ ∃ i, i < 28 ∧
         l = ["v" ++ toString i, "v" ++ toString (i + 1),
              "v" ++ toString (i + 2), "v" ++ toString (i + 3)]) ∧
    (∀ pair ∈ ld4_args_out_combinations, ∀ l ∈ pair.2, ∀ r ∈ l, r ∈ vregs_normal) ∧
    (∀ pair ∈ ld2_args_out_combinations, ∀ l ∈ pair.2, ∀ r ∈ l, r ∈ vregs_normal) ∧
    (∀ pair ∈ st4_args_in_combinations, ∀ l ∈ pair.2, ∀ r ∈ l, r ∈ vregs_normal) := by
  refine ⟨?_, ?_, ?_, ?_, ?_, ?_, ?_, ?_, ?_⟩
  · intro line inst h
    cases line <;> simp [ld4_tryparse] at h
    rcases h with ⟨rfl⟩
    rfl
  · intro line inst h
    cases line <;> simp [ld2_tryparse] at h
    rcases h with ⟨rfl⟩
    rfl
  · intro line inst h
    cases line <;> simp [st4_tryparse] at h
    rcases h with ⟨rfl⟩
    rfl
  · intro pair hp
    simp only [ld4_args_out_combinations, List.mem_singleton] at hp
    subst hp
    refine ⟨rfl, ?_⟩
    intro l
    simp [List.mem_map, List.mem_range]
    constructor
    · rintro ⟨i, hi, rfl⟩; exact ⟨i, hi, rfl⟩
    · rintro ⟨i, hi, rfl⟩; exact ⟨i, hi, rfl⟩
  · intro pair hp
    simp only [ld2_args_out_combinations, List.mem_singleton] at hp
    subst hp
    refine ⟨rfl, ?_⟩
    intro l
    simp [List.mem_map, List.mem_range]
    constructor
    · rintro ⟨i, hi, rfl⟩; exact ⟨i, hi, rfl⟩
    · rintro ⟨i, hi, rfl⟩; exact ⟨i, hi, rfl⟩
  · intro pair hp
    simp only [st4_args_in_combinations, List.mem_singleton] at hp
    subst hp
    refine ⟨rfl, ?_⟩
    intro l
    simp [List.mem_map, List.mem_range]
    constructor
    · rintro ⟨i, hi, rfl⟩; exact ⟨i, hi, rfl⟩
    · rintro ⟨i, hi, rfl⟩; exact ⟨i, hi, rfl⟩
  · decide
  · decide
  · decide

/-- C9 witness: the amended statement applied at a concrete parsed
`ld4` line. -/
theorem C9_combinations_amended_witness :
    (ld4_tryparse (AsmLine.ld4Line "v0" "v1" "v2" "v3" "4S" "4S" "4S" "4S" "x0"
        (some "64"))).map (fun i => i.args_out_combinations) =
      some ld4_args_out_combinations := by
  have h := C9_combinations_amended.1
    (AsmLine.ld4Line "v0" "v1" "v2" "v3" "4S" "4S" "4S" "4S" "x0" (some "64"))
  cases hp : ld4_tryparse (AsmLine.ld4Line "v0" "v1" "v2" "v3" "4S" "4S" "4S" "4S"
      "x0" (some "64")) with
  | none => exact absurd hp (by decide)
  | some i => simpa [hp] using h i hp

/-- C10: for every line of the `ldr`/`str` address shape (any offset,
writeback flag or post-index), `x_str.parse` places the base address
register only among the inputs (`args_in = [gpr, addr]`) and
`x_ldr.parse` likewise (`args_in = [addr]`, `args_out = [dest]`); the
output and in-out lists never receive the base register's operand
position, so writeback/post-increment address updates are not modelled
as writes. -/
theorem C10_ldst_base_register_input_only :
    (∀ dest addr off wb pinc inst,
       x_str_tryparse (AsmLine.ldst "str" dest addr off wb pinc) = some inst →
       inst.args_in = [dest, addr] ∧ inst.args_out = [] ∧ inst.args_in_out = []) ∧
    (∀ dest addr off wb pinc inst,
       x_ldr_tryparse (AsmLine.ldst "ldr" dest addr off wb pinc) = some inst →
       inst.args_in = [addr] ∧ inst.args_out = [dest] ∧ inst.args_in_out = []) := by
  constructor
  · intro dest addr off wb pinc inst h
    simp only [x_str_tryparse, Option.some.injEq] at h
    subst h
    exact ⟨rfl, rfl, rfl⟩
  · intro dest addr off wb pinc inst h
    simp only [x_ldr_tryparse, Option.some.injEq] at h
    subst h
    exact ⟨rfl, rfl, rfl⟩

/-- C10 witness: applied to `ldr x0, [x1], #16` (post-index) and
`str x2, [x3, #32]!` (writeback). -/
theorem C10_ldst_base_register_input_only_witness :
    (∃ inst, x_ldr_tryparse (AsmLine.ldst "ldr" "x0" "x1" none false (some "16")) =
        some inst ∧
      inst.args_in = ["x1"] ∧ inst.args_out = ["x0"] ∧ inst.args_in_out = []) ∧
    (∃ inst, x_str_tryparse (AsmLine.ldst "str" "x2" "x3" (some "32") true none) =
        some inst ∧
      inst.args_in = ["x2", "x3"] ∧ inst.args_out = [] ∧ inst.args_in_out = []) := by
  constructor
  · exact ⟨_, rfl,
      C10_ldst_base_register_input_only.2 "x0" "x1" none false (some "16") _ rfl⟩
  · exact ⟨_, rfl,
      C10_ldst_base_register_input_only.1 "x2" "x3" (some "32") true none _ rfl⟩

/-- C7: the pair-fusion callback of `vins` returns `changed = true`
exactly when the node is not already marked and its unique in/out
successor is a `vins` writing the same register with the complementary
half-lane (the lanes being `{0,1}`); in that case the in/out operand is
demoted to a pure output (`args_out` becomes that register, the in/out
lists are emptied) and the node is marked; otherwise the instruction is
returned unchanged with `false`. -/
theorem C7_vins_cb_characterization (inst : VinsInst) (t : NodeView) :
    ((vins_parsing_cb inst t).2 = true ↔
      inst.detected_vins_pair = false ∧
      ∃ r, t.dst_in_out_head = [DFGInst.vinsNode r] ∧
           r.args_in_out = inst.args_in_out ∧
           lanesComplementary r.lane inst.lane = true) ∧
    ((vins_parsing_cb inst t).2 = true →
      (vins_parsing_cb inst t).1 =
        { inst with
            num_out := 1
            args_out := inst.args_in_out.take 1
            arg_types_out := [RegisterType.Neon]
            args_out_restrictions := inst.args_in_out_restrictions
            num_in_out := 0
            args_in_out := []
            arg_types_in_out := []
            args_in_out_restrictions := []
            detected_vins_pair := true }) ∧
    ((vins_parsing_cb inst t).2 = false → (vins_parsing_cb inst t).1 = inst) := by
  obtain ⟨head⟩ := t
  cases hd : inst.detected_vins_pair with
  | true =>
    have hcb : vins_parsing_cb inst ⟨head⟩ = (inst, false) := by
      unfold vins_parsing_cb
      rw [hd]
      rfl
    rw [hcb]
    refine ⟨?_, fun h => Bool.noConfusion h, fun _ => rfl⟩
    constructor
    · intro h
      exact Bool.noConfusion h
    · rintro ⟨hdet, -⟩
      exact Bool.noConfusion hdet
  | false =>
    rcases head with _ | ⟨x, rest⟩
    · have hcb : vins_parsing_cb inst ⟨[]⟩ = (inst, false) := by
        unfold vins_parsing_cb
        rw [hd]
        rfl
      rw [hcb]
      refine ⟨?_, fun h => Bool.noConfusion h, fun _ => rfl⟩
      constructor
      · intro h
        exact Bool.noConfusion h
      · rintro ⟨-, r2, hr2, -⟩
        exact List.noConfusion hr2
    · rcases rest with _ | ⟨y, rest2⟩
      · rcases x with r | _
        · by_cases hc : r.args_in_out = inst.args_in_out ∧
              lanesComplementary r.lane inst.lane = true
          · have hcb : vins_parsing_cb inst ⟨[DFGInst.vinsNode r]⟩ =
                ({ inst with
                    num_out := 1
                    args_out := inst.args_in_out.take 1
                    arg_types_out := [RegisterType.Neon]
                    args_out_restrictions := inst.args_in_out_restrictions
                    num_in_out := 0
                    args_in_out := []
                    arg_types_in_out := []
                    args_in_out_restrictions := []
                    detected_vins_pair := true }, true) := by
              unfold vins_parsing_cb
              rw [hd]
              simp only [Bool.false_eq_true, if_false]
              rw [if_pos hc]
            rw [hcb]
            exact ⟨⟨fun _ => ⟨rfl, r, rfl, hc.1, hc.2⟩, fun _ => rfl⟩,
              fun _ => rfl, fun h => Bool.noConfusion h⟩
          · have hcb : vins_parsing_cb inst ⟨[DFGInst.vinsNode r]⟩ =
                (inst, false) := by
              unfold vins_parsing_cb
              rw [hd]
              simp only [Bool.false_eq_true, if_false]
              rw [if_neg hc]
            rw [hcb]
            refine ⟨?_, fun h => Bool.noConfusion h, fun _ => rfl⟩
            constructor
            · intro h
              exact Bool.noConfusion h
            · rintro ⟨-, r2, hr2, ha, hl⟩
              injection hr2 with h1 h2
              injection h1 with h1
              subst h1
              exact (hc ⟨ha, hl⟩).elim
        · have hcb : vins_parsing_cb inst ⟨[DFGInst.otherNode]⟩ =
              (inst, false) := by
            unfold vins_parsing_cb
            rw [hd]
            rfl
          rw [hcb]
          refine ⟨?_, fun h => Bool.noConfusion h, fun _ => rfl⟩
          constructor
          · intro h
            exact Bool.noConfusion h
          · rintro ⟨-, r2, hr2, -⟩
            injection hr2 with h1 h2
            exact DFGInst.noConfusion h1
      · have hcb : vins_parsing_cb inst ⟨x :: y :: rest2⟩ = (inst, false) := by
          unfold vins_parsing_cb
          rw [hd]
          rcases x with r | _ <;> rfl
        rw [hcb]
        refine ⟨?_, fun h => Bool.noConfusion h, fun _ => rfl⟩
        constructor
        · intro h
          exact Bool.noConfusion h
        · rintro ⟨-, r2, hr2, -⟩
          injection hr2 with h1 h2
          exact List.noConfusion h2

/-- C7 witness: the characterization applied to a concrete `vins` pair
(`vins v0, x5, 0` whose successor is `vins v0, x6, 1`). -/
theorem C7_vins_cb_characterization_witness :
    (vins_parsing_cb c7_demo_inst c7_demo_view).2 = true ∧
    (vins_parsing_cb c7_demo_inst c7_demo_view).1.args_out = ["v0"] ∧
    (vins_parsing_cb c7_demo_inst c7_demo_view).1.args_in_out = [] := by
  have h := C7_vins_cb_characterization c7_demo_inst c7_demo_view
  have hchanged : (vins_parsing_cb c7_demo_inst c7_demo_view).2 = true := by
    apply h.1.mpr
    exact ⟨rfl, { c7_demo_inst with args_in := ["x6"], lane := "1" }, rfl, rfl, rfl⟩
  have hmut := h.2.1 hchanged
  rw [hmut]
  exact ⟨hchanged, rfl, rfl⟩

/-- C8 (counterexample): `Heuristics.periodic` with
`inputs_are_outputs = True` writes `conf.outputs` and
`conf.inputs_are_outputs` directly on the caller's configuration object
without copying first — after the call, the caller's object differs. -/
theorem C8_periodic_mutates_caller_conf :
    periodic_conf_effect (fun _ _ => ["x0"]) ["ldr x0, [x1]"] conf_demo ≠ conf_demo ∧
    (periodic_conf_effect (fun _ _ => ["x0"])
        ["ldr x0, [x1]"] conf_demo).inputs_are_outputs = false ∧
    conf_demo.inputs_are_outputs = true := by
  refine ⟨?_, rfl, rfl⟩
  intro h
  have := congrArg Config.inputs_are_outputs h
  simp [periodic_conf_effect, conf_demo] at this

/-- C8 (amended): the binary-search wrappers, `linear` and `_split`
mutate only deep copies, so the caller's configuration object is
unchanged; `periodic` alone mutates the caller's object (its `outputs`
and `inputs_are_outputs` fields) when `inputs_are_outputs` is set, and
`_split_inner` clears the reordering/renaming flags on its argument —
but is only ever invoked on a copy made by `_split`. -/
theorem C8_conf_copy_amended :
    (∀ conf stalls, binsearch_core_conf_effect conf stalls = conf) ∧
    (∀ conf, binsearch_conf_effect conf = conf) ∧
    (∀ conf, linear_conf_effect conf = conf) ∧
    (∀ conf, split_conf_effect conf = conf) ∧
    (∀ f body conf, conf.inputs_are_outputs = false →
       periodic_conf_effect f body conf = conf) ∧
    (∀ f body conf, conf.inputs_are_outputs = true →
       periodic_conf_effect f body conf =
         { conf with outputs := f body conf, inputs_are_outputs := false }) ∧
    (∀ conf, 0 < conf.split_heuristic_repeat →
       split_inner_conf_effect conf =
         { conf with
             constraints.allow_reordering := false
             constraints.allow_renaming := false }) := by
  refine ⟨fun _ _ => rfl, fun _ => rfl, ?_, fun _ => rfl, ?_, ?_, ?_⟩
  · intro conf
    unfold linear_conf_effect binsearch_conf_effect split_conf_effect
    split <;> rfl
  · intro f body conf h
    simp [periodic_conf_effect, h]
  · intro f body conf h
    simp [periodic_conf_effect, h]
  · intro conf h
    simp [split_inner_conf_effect, h]

/-- C8 witness: the amended statement applied at `conf_demo`. -/
theorem C8_conf_copy_amended_witness :
    binsearch_conf_effect conf_demo = conf_demo ∧
    periodic_conf_effect (fun _ _ => ["x0"]) [] conf_demo =
      { conf_demo with outputs := ["x0"], inputs_are_outputs := false } ∧
    split_inner_conf_effect conf_demo =
      { conf_demo with
          constraints.allow_reordering := false
          constraints.allow_renaming := false } :=
  ⟨C8_conf_copy_amended.2.1 conf_demo,
   C8_conf_copy_amended.2.2.2.2.2.1 (fun _ _ => ["x0"]) [] conf_demo rfl,
   C8_conf_copy_amended.2.2.2.2.2.2 conf_demo (by decide)⟩

/-- C5: in both stall-minimizing searches, when the search succeeds and
`has_objective` is set, the driver re-runs at the found minimum number
of stalls with the objective enabled (`ignore_objective := False`, resp.
`variable_size := False` with `stalls_allowed := min_stalls`); if that
re-run fails, the result of the first, objective-free optimization is
returned instead of failing. -/
theorem C5_objective_fallback :
    (∀ (bsearchCore : List String → Config → Nat × Core)
       (retry : Core → Bool × Core) (source : List String) (conf : Config),
       conf.has_objective = true →
       (retry { (bsearchCore source { conf with ignore_objective := true }).2 with
                  cfg_ignore_objective := false }).1 = false →
       optimize_binsearch_external bsearchCore retry source conf =
         (bsearchCore source { conf with ignore_objective := true }).2.result) ∧
    (∀ (optimize optimizeRetry : List String → Config → Option CoreResult)
       (source : List String) (conf : Config) (ms : Nat) (fr : CoreResult),
       optimize_binsearch_internal_loop optimize source conf
         conf.constraints.stalls_first_attempt = some (ms, fr) →
       conf.has_objective = true →
       optimizeRetry source
         { conf with
             variable_size := false
             constraints.stalls_allowed := ms } = none →
       optimize_binsearch_internal optimize optimizeRetry source conf = some fr) := by
  constructor
  · intro bsearchCore retry source conf hobj hfail
    unfold optimize_binsearch_external
    simp only [hobj] at hfail ⊢
    simp [hfail]
  · intro optimize optimizeRetry source conf ms fr hloop hobj hfail
    unfold optimize_binsearch_internal
    rw [hloop]
    simp only [hobj] at hfail ⊢
    simp [hfail]

/-- C5 witness: both parts applied to concrete collaborators whose
retry/re-run fails. -/
theorem C5_objective_fallback_witness :
    optimize_binsearch_external
        (fun _ _ => (0, ⟨⟨["r0"], 0⟩, true⟩))
        (fun core => (false, core))
        ["src"] conf_demo = ⟨["r0"], 0⟩ ∧
    optimize_binsearch_internal
        (fun _ _ => some ⟨["r1"], 0⟩) (fun _ _ => none)
        ["src"] conf_demo = some ⟨["r1"], 0⟩ := by
  constructor
  · exact C5_objective_fallback.1 _ _ ["src"] conf_demo rfl rfl
  · refine C5_objective_fallback.2 _ _ ["src"] conf_demo 0 ⟨["r1"], 0⟩ ?_ rfl rfl
    simp [optimize_binsearch_internal_loop]

/-- C1: under the halving heuristic, `_periodic_halving` linearly
optimizes the body into a kernel `[A;B]`, and returns: preamble = the
kernel's first half `A`, postamble = its second half `B`, new kernel =
the re-optimization of the rotation `[B;A]` (in periodic-seam mode when
`halving_heuristic_periodic` is set, else linearly), and
`num_exceptional_iterations = 1`. -/
theorem C1_halving_shape
    (dfgInputs linearOpt binsearchCode : List String → Config → List String)
    (reduce : List String → List String)
    (body : List String) (conf : Config)
    (_h1 : conf.sw_pipelining.enabled = true)
    (_h2 : conf.sw_pipelining.halving_heuristic = true) :
    ∃ kernel : List String,
      kernel = reduce (linearOpt body
        { conf with
            sw_pipelining.enabled := false
            inputs_are_outputs := true
            outputs := pyUnion conf.outputs (dfgInputs body conf) }) ∧
      periodic_halving dfgInputs linearOpt binsearchCode reduce body conf =
        (kernel.take (kernel.length / 2),
         (if conf.sw_pipelining.halving_heuristic_periodic then
            binsearchCode
              (kernel.drop (kernel.length / 2) ++ kernel.take (kernel.length / 2))
              { conf with
                  inputs_are_outputs := true
                  sw_pipelining.minimize_overlapping := false
                  sw_pipelining.enabled := true
                  sw_pipelining.allow_pre := false
                  sw_pipelining.allow_post := false }
          else
            linearOpt
              (kernel.drop (kernel.length / 2) ++ kernel.take (kernel.length / 2))
              { conf with
                  outputs := dfgInputs
                    (kernel.drop (kernel.length / 2) ++
                      kernel.take (kernel.length / 2))
                    { conf with inputs_are_outputs := true }
                  sw_pipelining.enabled := false }),
         kernel.drop (kernel.length / 2), 1) :=
  ⟨_, rfl, rfl⟩

/-- C1 witness: the halving shape on a concrete four-line body with
identity collaborators — the returned tuple is
(first half, rotated kernel, second half, 1). -/
theorem C1_halving_shape_witness :
    periodic_halving (fun _ _ => ["x1"]) (fun b _ => b) (fun b _ => b)
      (fun b => b) ["a", "b", "c", "d"] conf_demo =
      (["a", "b"], ["c", "d", "a", "b"], ["c", "d"], 1) := by
  obtain ⟨kernel, hk, hres⟩ := C1_halving_shape (fun _ _ => ["x1"]) (fun b _ => b)
    (fun b _ => b) (fun b => b) ["a", "b", "c", "d"] conf_demo rfl rfl
  subst hk
  rw [hres]
  rfl

/-- Helper for C2: scanning in state 0 past lines that do not match the
label finds the label line and returns its remainder. -/
theorem findLabel_spec (lbl : String) (pre : List SrcLine) (rem : SrcLine)
    (rest : List SrcLine) (hpre : ∀ l ∈ pre, matchLabel lbl l = none) :
    findLabel lbl (pre ++ SrcLine.labelLine lbl rem :: rest) =
      some (pre, rem, rest) := by
  induction pre with
  | nil => simp [findLabel, matchLabel]
  | cons p ps ih =>
    have hp : matchLabel lbl p = none := hpre p (by simp)
    have ih2 := ih (fun l hl => hpre l (by simp [hl]))
    simp [findLabel, hp, ih2]

/-- Helper for C2: state 0 never leaves when no line matches the
label. -/
theorem findLabel_none (lbl : String) (src : List SrcLine)
    (h : ∀ l ∈ src, matchLabel lbl l = none) :
    findLabel lbl src = none := by
  induction src with
  | nil => rfl
  | cons p ps ih =>
    have hp : matchLabel lbl p = none := h p (by simp)
    have ih2 := ih (fun l hl => h l (by simp [hl]))
    simp [findLabel, hp, ih2]

/-- Helper for C2: state 1 collects lines until the first `subs`. -/
theorem findSubs_spec (mid : List SrcLine) (r0 r1 imm : String)
    (rest : List SrcLine) (hmid : ∀ l ∈ mid, matchSubs l = none) :
    findSubs (mid ++ SrcLine.subsLine r0 r1 imm :: rest) =
      some (mid, (r0, r1, imm), rest) := by
  induction mid with
  | nil => simp [findSubs, matchSubs]
  | cons p ps ih =>
    have hp : matchSubs p = none := hmid p (by simp)
    have ih2 := ih (fun l hl => hmid l (by simp [hl]))
    simp [findSubs, hp, ih2]

/-- Helper for C2: state 1 never leaves when no line matches `subs`. -/
theorem findSubs_none (src : List SrcLine)
    (h : ∀ l ∈ src, matchSubs l = none) :
    findSubs src = none := by
  induction src with
  | nil => rfl
  | cons p ps ih =>
    have hp : matchSubs p = none := h p (by simp)
    have ih2 := ih (fun l hl => h l (by simp [hl]))
    simp [findSubs, hp, ih2]

/-- Helper for C2: state 2 never leaves when no branch names the
label. -/
theorem findCbnz_none (lbl : String) (src : List SrcLine)
    (h : ∀ l ∈ src, matchCbnz lbl l = false) :
    findCbnz lbl src = none := by
  induction src with
  | nil => rfl
  | cons p ps ih =>
    have hp : matchCbnz lbl p = false := h p (by simp)
    have ih2 := ih (fun l hl => h l (by simp [hl]))
    simp [findCbnz, hp, ih2]

/-- Helper for C2: state 2 collects lines until the first branch naming
the label. -/
theorem findCbnz_spec (lbl : String) (mid : List SrcLine) (reg tgt : String)
    (post : List SrcLine) (hmid : ∀ l ∈ mid, matchCbnz lbl l = false)
    (htgt : lbl.toList.isPrefixOf tgt.toList = true) :
    findCbnz lbl (mid ++ SrcLine.cbnzLine reg tgt :: post) =
      some (mid, post) := by
  have hm : matchCbnz lbl (SrcLine.cbnzLine reg tgt) = true := htgt
  induction mid with
  | nil => simp [findCbnz, hm]
  | cons p ps ih =>
    have hp : matchCbnz lbl p = false := hmid p (by simp)
    have ih2 := ih (fun l hl => hmid l (by simp [hl]))
    simp [findCbnz, hp, ih2]

/-- C2 (counterexample): on a loop whose `subs` countdown is separated
from the `cbnz` branch by a `mov`, `Loop.extract` does not raise (though
the claim's terminator — `subs` immediately followed by `cbnz` — never
occurs), and the returned body is not the range strictly between the
label and a countdown/branch pair: it also contains the `mov` standing
between `subs` and `cbnz` (and starts with the empty remainder of the
label line). -/
theorem C2_loop_extract_counterexample :
    Loop.extract c2_demo_src "loop" =
      some ⟨[], [SrcLine.plain "", SrcLine.plain "add x0, x0, x1",
                 SrcLine.plain "mov x3, x4"], [], "count", "count", "#1"⟩ ∧
    ∀ res, Loop.extract c2_demo_src "loop" = some res →
      SrcLine.plain "mov x3, x4" ∈ res.body := by
  have h0 : Loop.extract c2_demo_src "loop" =
      some ⟨[], [SrcLine.plain "", SrcLine.plain "add x0, x0, x1",
                 SrcLine.plain "mov x3, x4"], [], "count", "count", "#1"⟩ := by
    decide
  refine ⟨h0, ?_⟩
  intro res h
  rw [h0] at h
  injection h with h
  subst h
  decide

/-- C2 (amended): `Loop.extract` finds the label line, then scans for
the *first* `subs` countdown and afterwards, separately, for the first
`cbnz`/`bnz` branch whose target starts with the label — the branch need
not immediately follow the countdown.  The returned body is the
remainder of the label line followed by all lines strictly between the
label and the branch, except the countdown line itself (lines between
`subs` and `cbnz` are included); `pre`/`post` are the lines before the
label/after the branch, and the countdown's registers and immediate are
returned.  If the label is absent, or the scan finds no countdown after
the label, or no branch after the countdown, an exception is raised. -/
theorem C2_loop_extract_amended :
    (∀ (pre mid1 mid2 post : List SrcLine) (lbl : String) (rem : SrcLine)
       (r0 r1 imm reg tgt : String),
       (∀ l ∈ pre, matchLabel lbl l = none) →
       matchSubs rem = none →
       (∀ l ∈ mid1, matchSubs l = none) →
       (∀ l ∈ mid2, matchCbnz lbl l = false) →
       lbl.toList.isPrefixOf tgt.toList = true →
       Loop.extract
         (pre ++ SrcLine.labelLine lbl rem ::
           (mid1 ++ SrcLine.subsLine r0 r1 imm ::
             (mid2 ++ SrcLine.cbnzLine reg tgt :: post))) lbl =
         some ⟨pre, (rem :: mid1) ++ mid2, post, r0, r1, imm⟩) ∧
    (∀ src lbl, (∀ l ∈ src, matchLabel lbl l = none) →
       Loop.extract src lbl = none) ∧
    (∀ (pre rest : List SrcLine) (lbl : String) (rem : SrcLine),
       (∀ l ∈ pre, matchLabel lbl l = none) →
       matchSubs rem = none →
       (∀ l ∈ rest, matchSubs l = none) →
       Loop.extract (pre ++ SrcLine.labelLine lbl rem :: rest) lbl = none) ∧
    (∀ (pre mid1 rest2 : List SrcLine) (lbl : String) (rem : SrcLine)
       (r0 r1 imm : String),
       (∀ l ∈ pre, matchLabel lbl l = none) →
       matchSubs rem = none →
       (∀ l ∈ mid1, matchSubs l = none) →
       (∀ l ∈ rest2, matchCbnz lbl l = false) →
       Loop.extract
         (pre ++ SrcLine.labelLine lbl rem ::
           (mid1 ++ SrcLine.subsLine r0 r1 imm :: rest2)) lbl = none) := by
  refine ⟨?_, ?_, ?_, ?_⟩
  · intro pre mid1 mid2 post lbl rem r0 r1 imm reg tgt hpre hrem hmid1 hmid2 htgt
    have hlab := findLabel_spec lbl pre rem
      (mid1 ++ SrcLine.subsLine r0 r1 imm ::
        (mid2 ++ SrcLine.cbnzLine reg tgt :: post)) hpre
    have hsubs : findSubs
        (rem :: (mid1 ++ SrcLine.subsLine r0 r1 imm ::
          (mid2 ++ SrcLine.cbnzLine reg tgt :: post))) =
        some (rem :: mid1, (r0, r1, imm),
          mid2 ++ SrcLine.cbnzLine reg tgt :: post) := by
      have h2 := findSubs_spec (rem :: mid1) r0 r1 imm
        (mid2 ++ SrcLine.cbnzLine reg tgt :: post)
        (by
          intro l hl
          rcases List.mem_cons.mp hl with h | h
          · subst h; exact hrem
          · exact hmid1 l h)
      simpa using h2
    have hcb := findCbnz_spec lbl mid2 reg tgt post hmid2 htgt
    simp [Loop.extract, hlab, hsubs, hcb]
  · intro src lbl h
    simp [Loop.extract, findLabel_none lbl src h]
  · intro pre rest lbl rem hpre hrem hrest
    have hlab := findLabel_spec lbl pre rem rest hpre
    have hsubs : findSubs (rem :: rest) = none :=
      findSubs_none _ (by
        intro l hl
        rcases List.mem_cons.mp hl with h | h
        · subst h; exact hrem
        · exact hrest l h)
    simp [Loop.extract, hlab, hsubs]
  · intro pre mid1 rest2 lbl rem r0 r1 imm hpre hrem hmid1 hrest2
    have hlab := findLabel_spec lbl pre rem
      (mid1 ++ SrcLine.subsLine r0 r1 imm :: rest2) hpre
    have hsubs : findSubs
        (rem :: (mid1 ++ SrcLine.subsLine r0 r1 imm :: rest2)) =
        some (rem :: mid1, (r0, r1, imm), rest2) := by
      have h2 := findSubs_spec (rem :: mid1) r0 r1 imm rest2
        (by
          intro l hl
          rcases List.mem_cons.mp hl with h | h
          · subst h; exact hrem
          · exact hmid1 l h)
      simpa using h2
    simp [Loop.extract, hlab, hsubs, findCbnz_none lbl rest2 hrest2]

/-- C2 witness: the amended statement on a concrete loop with a line
between the countdown and the branch. -/
theorem C2_loop_extract_amended_witness :
    Loop.extract
      [SrcLine.plain "pre", SrcLine.labelLine "start" (SrcLine.plain ""),
       SrcLine.plain "a", SrcLine.subsLine "x0" "x0" "#1",
       SrcLine.plain "b", SrcLine.cbnzLine "x0" "start",
       SrcLine.plain "tail"] "start" =
      some ⟨[SrcLine.plain "pre"],
            [SrcLine.plain "", SrcLine.plain "a", SrcLine.plain "b"],
            [SrcLine.plain "tail"], "x0", "x0", "#1"⟩ := by
  have h := C2_loop_extract_amended.1 [SrcLine.plain "pre"] [SrcLine.plain "a"]
    [SrcLine.plain "b"] [SrcLine.plain "tail"] "start" (SrcLine.plain "")
    "x0" "x0" "#1" "x0" "start"
    (by decide) rfl (by decide) (by decide) (by decide)
  simpa using h

/-- Helper: inversion of a successful `mapM` over `Option` at a cons
cell. -/
theorem mapM_option_cons_inv {α β : Type} {f : α → Option β} {a : α} {l : List α}
    {res : List β} (h : (a :: l).mapM f = some res) :
    ∃ b bs, f a = some b ∧ l.mapM f = some bs ∧ res = b :: bs := by
  rw [List.mapM_cons] at h
  cases hfa : f a with
  | none => rw [hfa] at h; simp at h
  | some b =>
    rw [hfa] at h
    cases hfl : l.mapM f with
    | none => rw [hfl] at h; simp at h
    | some bs =>
      rw [hfl] at h
      simp at h
      exact ⟨b, bs, rfl, rfl, h.symm⟩

/-- Helper: introduction of `mapM` over `Option` at a cons cell. -/
theorem mapM_option_cons_intro {α β : Type} {f : α → Option β} {a : α}
    {l : List α} {b : β} {bs : List β} (hfa : f a = some b)
    (hfl : l.mapM f = some bs) : (a :: l).mapM f = some (b :: bs) := by
  rw [List.mapM_cons, hfa, hfl]
  rfl

/-- Helper: a successful `mapM` over `Option` relates inputs and
outputs pointwise. -/
theorem mapM_option_forall2 {α β : Type} (f : α → Option β) :
    ∀ (l : List α) (res : List β), l.mapM f = some res →
      List.Forall₂ (fun a b => f a = some b) l res := by
  intro l
  induction l with
  | nil =>
    intro res h
    simp only [List.mapM_nil] at h
    cases h
    exact List.Forall₂.nil
  | cons a l ih =>
    intro res h
    obtain ⟨b, bs, hfa, hfl, rfl⟩ := mapM_option_cons_inv h
    exact List.Forall₂.cons hfa (ih bs hfl)

/-- Helper: `mapM` over `Option` only depends on the function's values
on the list. -/
theorem mapM_option_congr {α β : Type} {f g : α → Option β} :
    ∀ l : List α, (∀ a ∈ l, f a = g a) → l.mapM f = l.mapM g := by
  intro l
  induction l with
  | nil => intro _; rfl
  | cons a l ih =>
    intro h
    rw [List.mapM_cons, List.mapM_cons, h a (by simp),
      ih (fun x hx => h x (by simp [hx]))]

/-- Helper: `mapM` over `Option` succeeds when the function succeeds on
every element. -/
theorem mapM_option_isSome {α β : Type} (f : α → Option β) :
    ∀ l : List α, (∀ a ∈ l, (f a).isSome = true) → ∃ res, l.mapM f = some res := by
  intro l
  induction l with
  | nil => intro _; exact ⟨[], rfl⟩
  | cons a l ih =>
    intro h
    obtain ⟨b, hb⟩ := Option.isSome_iff_exists.mp (h a (by simp))
    obtain ⟨bs, hbs⟩ := ih (fun x hx => h x (by simp [hx]))
    exact ⟨b :: bs, mapM_option_cons_intro hb hbs⟩

/-- Helper: upgrade a successful `mapM` to a pointwise relation using a
per-element specification. -/
theorem forall2_of_mapM_spec {α β : Type} {f : α → Option β} {P : α → β → Prop} :
    ∀ {l : List α} {res : List β}, l.mapM f = some res →
      (∀ a ∈ l, ∀ b, f a = some b → P a b) → List.Forall₂ P l res := by
  intro l
  induction l with
  | nil =>
    intro res h _
    simp only [List.mapM_nil] at h
    cases h
    exact List.Forall₂.nil
  | cons a l ih =>
    intro res h hspec
    obtain ⟨b, bs, hfa, hfl, rfl⟩ := mapM_option_cons_inv h
    exact List.Forall₂.cons (hspec a (by simp) b hfa)
      (ih hfl (fun x hx => hspec x (by simp [hx])))

/-- Inversion for one token match: the nine ways `matchTok` can
succeed. -/
theorem matchTok_spec (p : PatTok) (l : LineTok) (st st2 : MatchSt)
    (h : matchTok p l st = some st2) :
    (∃ s, p = .lit s ∧ l = .lit s ∧ st2 = st) ∨
    (∃ n c d, p = .reg n ∧ l = .regNum c d ∧ matchRegLetter n c = true ∧
       isDigits12 d = true ∧ st2 = setReg st n d) ∨
    (∃ n c sym, p = .reg n ∧ l = .regSym c sym ∧ matchRegLetter n c = true ∧
       isWordStr sym = true ∧ st2 = setReg st n sym) ∨
    (∃ s, p = .dtTok none ∧ l = .dt s ∧ isDTypeStrict s = true ∧
       st2 = { st with dtP := some s }) ∨
    (∃ s, p = .dtTok (some 0) ∧ l = .dt s ∧ isDTypeOpt s = true ∧
       st2 = { st with dt0 := some s }) ∨
    (∃ s, p = .dtTok (some 1) ∧ l = .dt s ∧ isDTypeOpt s = true ∧
       st2 = { st with dt1 := some s }) ∨
    (∃ s, p = .dtTok (some 2) ∧ l = .dt s ∧ isDTypeOpt s = true ∧
       st2 = { st with dt2 := some s }) ∨
    (∃ s, p = .immP ∧ l = .immTok s ∧ isImmStr s = true ∧
       st2 = { st with imm := some s }) ∨
    (∃ k, p = .indexP ∧ l = .indexTok k ∧ st2 = { st with index := some k }) := by
  cases p with
  | lit s =>
    cases l <;> simp [matchTok] at h
    case lit s2 =>
      obtain ⟨rfl, rfl⟩ := h
      exact Or.inl ⟨s, rfl, rfl, rfl⟩
  | reg n =>
    cases l <;> simp [matchTok] at h
    case regNum c d =>
      rcases h with ⟨⟨h1, h2⟩, rfl⟩
      exact Or.inr (Or.inl ⟨n, c, d, rfl, rfl, h1, h2, rfl⟩)
    case regSym c sym =>
      rcases h with ⟨⟨h1, h2⟩, rfl⟩
      exact Or.inr (Or.inr (Or.inl ⟨n, c, sym, rfl, rfl, h1, h2, rfl⟩))
  | dtTok idx =>
    rcases idx with _ | i
    · cases l <;> simp [matchTok] at h
      case dt s =>
        rcases h with ⟨h1, rfl⟩
        exact Or.inr (Or.inr (Or.inr (Or.inl ⟨s, rfl, rfl, h1, rfl⟩)))
    · rcases i with _ | i
      · cases l <;> simp [matchTok] at h
        case dt s =>
          rcases h with ⟨h1, rfl⟩
          exact Or.inr (Or.inr (Or.inr (Or.inr (Or.inl ⟨s, rfl, rfl, h1, rfl⟩))))
      · rcases i with _ | i
        · cases l <;> simp [matchTok] at h
          case dt s =>
            rcases h with ⟨h1, rfl⟩
            exact Or.inr (Or.inr (Or.inr (Or.inr (Or.inr (Or.inl
              ⟨s, rfl, rfl, h1, rfl⟩)))))
        · rcases i with _ | i
          · cases l <;> simp [matchTok] at h
            case dt s =>
              rcases h with ⟨h1, rfl⟩
              exact Or.inr (Or.inr (Or.inr (Or.inr (Or.inr (Or.inr (Or.inl
                ⟨s, rfl, rfl, h1, rfl⟩))))))
          · cases l <;> simp [matchTok] at h
  | immP =>
    cases l <;> simp [matchTok] at h
    case immTok s =>
      rcases h with ⟨h1, rfl⟩
      exact Or.inr (Or.inr (Or.inr (Or.inr (Or.inr (Or.inr (Or.inr (Or.inl
        ⟨s, rfl, rfl, h1, rfl⟩)))))))
  | indexP =>
    cases l <;> simp [matchTok] at h
    case indexTok k =>
      rcases h with rfl
      exact Or.inr (Or.inr (Or.inr (Or.inr (Or.inr (Or.inr (Or.inr (Or.inr
        ⟨k, rfl, rfl, rfl⟩)))))))

/-- Inversion of `matchPattern` at a cons cell. -/
theorem matchPattern_cons_inv {p : PatTok} {ps : List PatTok} {l : LineTok}
    {ls : List LineTok} {st st2 : MatchSt}
    (h : matchPattern (p :: ps) (l :: ls) st = some st2) :
    ∃ st1, matchTok p l st = some st1 ∧ matchPattern ps ls st1 = some st2 := by
  simp only [matchPattern] at h
  cases hmt : matchTok p l st with
  | none => rw [hmt] at h; simp at h
  | some st1 =>
    rw [hmt] at h
    exact ⟨st1, rfl, h⟩

/-- A concrete match decomposes at a cons cell: the tail stays concrete
and a register placeholder at the head faces a concrete register. -/
theorem concreteMatch_cons {p : PatTok} {l : LineTok} {ps : List PatTok}
    {ls : List LineTok} (h : concreteMatch (p :: ps) (l :: ls) = true) :
    concreteMatch ps ls = true ∧ (∀ n, p = .reg n → ∃ c d, l = .regNum c d) := by
  cases p with
  | lit s =>
    refine ⟨?_, fun n hn => PatTok.noConfusion hn⟩
    cases l <;> simpa [concreteMatch] using h
  | reg n =>
    cases l with
    | regNum c d =>
      exact ⟨by simpa [concreteMatch] using h, fun n2 hn => ⟨c, d, rfl⟩⟩
    | lit s => simp [concreteMatch] at h
    | regSym c s => simp [concreteMatch] at h
    | word s => simp [concreteMatch] at h
    | dt s => simp [concreteMatch] at h
    | immTok s => simp [concreteMatch] at h
    | indexTok k => simp [concreteMatch] at h
  | dtTok idx =>
    refine ⟨?_, fun n hn => PatTok.noConfusion hn⟩
    cases l <;> simpa [concreteMatch] using h
  | immP =>
    refine ⟨?_, fun n hn => PatTok.noConfusion hn⟩
    cases l <;> simpa [concreteMatch] using h
  | indexP =>
    refine ⟨?_, fun n hn => PatTok.noConfusion hn⟩
    cases l <;> simpa [concreteMatch] using h

/-- The register map after a dictionary update. -/
theorem setReg_regs (st : MatchSt) (n v m : String) :
    (setReg st n v).regs m = if m = n then some v else st.regs m := rfl

/-- One concrete-register token match preserves the `groupdict`
invariant. -/
theorem StOK_matchTok {p : PatTok} {l : LineTok} {st st1 : MatchSt}
    (h : matchTok p l st = some st1) (hok : StOK st)
    (hconc : ∀ n, p = .reg n → ∃ c d, l = .regNum c d) : StOK st1 := by
  obtain ⟨hr, hdtP, h0, hh1, hh2, him⟩ := hok
  rcases matchTok_spec p l st st1 h with
    ⟨s, rfl, rfl, rfl⟩ | ⟨n, c, d, rfl, rfl, h1, h2, rfl⟩ |
    ⟨n, c, sym, rfl, rfl, h1, h2, rfl⟩ | ⟨s, rfl, rfl, h1, rfl⟩ |
    ⟨s, rfl, rfl, h1, rfl⟩ | ⟨s, rfl, rfl, h1, rfl⟩ | ⟨s, rfl, rfl, h1, rfl⟩ |
    ⟨s, rfl, rfl, h1, rfl⟩ | ⟨k, rfl, rfl, rfl⟩
  · exact ⟨hr, hdtP, h0, hh1, hh2, him⟩
  · refine ⟨?_, hdtP, h0, hh1, hh2, him⟩
    intro m dd hm
    rw [setReg_regs] at hm
    by_cases hmn : m = n
    · rw [if_pos hmn] at hm
      cases hm
      exact h2
    · rw [if_neg hmn] at hm
      exact hr m dd hm
  · obtain ⟨c2, d2, hl2⟩ := hconc n rfl
    exact LineTok.noConfusion hl2
  · refine ⟨hr, ?_, h0, hh1, hh2, him⟩
    intro s2 hs2
    cases hs2
    exact h1
  · refine ⟨hr, hdtP, ?_, hh1, hh2, him⟩
    intro s2 hs2
    cases hs2
    exact h1
  · refine ⟨hr, hdtP, h0, ?_, hh2, him⟩
    intro s2 hs2
    cases hs2
    exact h1
  · refine ⟨hr, hdtP, h0, hh1, ?_, him⟩
    intro s2 hs2
    cases hs2
    exact h1
  · refine ⟨hr, hdtP, h0, hh1, hh2, ?_⟩
    intro s2 hs2
    cases hs2
    exact h1
  · exact ⟨hr, hdtP, h0, hh1, hh2, him⟩

/-- The empty `groupdict` satisfies the invariant. -/
theorem StOK_init : StOK initSt :=
  ⟨fun _ _ h => Option.noConfusion h, fun _ h => Option.noConfusion h,
   fun _ h => Option.noConfusion h, fun _ h => Option.noConfusion h,
   fun _ h => Option.noConfusion h, fun _ h => Option.noConfusion h⟩

/-- A concrete pattern match from an invariant-satisfying `groupdict`
yields an invariant-satisfying `groupdict`. -/
theorem matchPattern_StOK :
    ∀ (ps : List PatTok) (ls : List LineTok) (st st2 : MatchSt),
      concreteMatch ps ls = true → matchPattern ps ls st = some st2 →
      StOK st → StOK st2 := by
  intro ps
  induction ps with
  | nil =>
    intro ls st st2 hc h hok
    cases ls with
    | nil =>
      simp only [matchPattern, Option.some.injEq] at h
      rw [← h]
      exact hok
    | cons l ls => simp [concreteMatch] at hc
  | cons p ps ih =>
    intro ls st st2 hc h hok
    cases ls with
    | nil => simp [matchPattern] at h
    | cons l ls =>
      obtain ⟨st1, hmt, hrest⟩ := matchPattern_cons_inv h
      obtain ⟨hc2, hcr⟩ := concreteMatch_cons hc
      exact ih ls st1 st2 hc2 hrest (StOK_matchTok hmt hok hcr)

/-- Generic field lemma for a pattern match: a group is present in the
final `groupdict` when its token occurs in the pattern, and untouched
otherwise. -/
theorem matchPattern_field_gen {γ : Type} (F : MatchSt → Option γ) (tk : PatTok)
    (hF : ∀ p l st0 st1, matchTok p l st0 = some st1 → p ≠ tk → F st1 = F st0)
    (hFset : ∀ l st0 st1, matchTok tk l st0 = some st1 → (F st1).isSome = true) :
    ∀ (ps : List PatTok) (ls : List LineTok) (st st2 : MatchSt),
      matchPattern ps ls st = some st2 →
      (tk ∈ ps → (F st2).isSome = true) ∧ (tk ∉ ps → F st2 = F st) := by
  intro ps
  induction ps with
  | nil =>
    intro ls st st2 h
    cases ls with
    | nil =>
      simp only [matchPattern, Option.some.injEq] at h
      subst h
      exact ⟨fun htok => absurd htok (List.not_mem_nil tk), fun _ => rfl⟩
    | cons l ls => simp [matchPattern] at h
  | cons p ps ih =>
    intro ls st st2 h
    cases ls with
    | nil => simp [matchPattern] at h
    | cons l ls =>
      obtain ⟨st1, hmt, hrest⟩ := matchPattern_cons_inv h
      obtain ⟨ihp, iha⟩ := ih ls st1 st2 hrest
      constructor
      · intro htok
        rcases List.mem_cons.mp htok with hh | htk
        · by_cases htl : tk ∈ ps
          · exact ihp htl
          · rw [iha htl]
            subst hh
            exact hFset l st st1 hmt
        · exact ihp htk
      · intro htok
        have hp : p ≠ tk := fun he => htok (he ▸ List.mem_cons_self p ps)
        rw [iha (fun hm => htok (List.mem_cons_of_mem p hm)),
          hF p l st st1 hmt hp]

/-- A token other than `reg n` leaves the capture of `n` unchanged. -/
theorem matchTok_regs_other (n : String) :
    ∀ (p : PatTok) (l : LineTok) (st0 st1 : MatchSt),
      matchTok p l st0 = some st1 → p ≠ PatTok.reg n → st1.regs n = st0.regs n := by
  intro p l st0 st1 h hne
  rcases matchTok_spec p l st0 st1 h with
    ⟨s, rfl, rfl, rfl⟩ | ⟨m, c, d, rfl, rfl, h1, h2, rfl⟩ |
    ⟨m, c, sym, rfl, rfl, h1, h2, rfl⟩ | ⟨s, rfl, rfl, h1, rfl⟩ |
    ⟨s, rfl, rfl, h1, rfl⟩ | ⟨s, rfl, rfl, h1, rfl⟩ | ⟨s, rfl, rfl, h1, rfl⟩ |
    ⟨s, rfl, rfl, h1, rfl⟩ | ⟨k, rfl, rfl, rfl⟩ <;>
    first
      | rfl
      | (rw [setReg_regs]
         exact if_neg (fun he => hne (congrArg PatTok.reg he.symm)))

/-- A token other than `dtTok none` leaves the plain datatype group
unchanged. -/
theorem matchTok_dtP_other :
    ∀ (p : PatTok) (l : LineTok) (st0 st1 : MatchSt),
      matchTok p l st0 = some st1 → p ≠ PatTok.dtTok none → st1.dtP = st0.dtP := by
  intro p l st0 st1 h hne
  rcases matchTok_spec p l st0 st1 h with
    ⟨s, rfl, rfl, rfl⟩ | ⟨m, c, d, rfl, rfl, h1, h2, rfl⟩ |
    ⟨m, c, sym, rfl, rfl, h1, h2, rfl⟩ | ⟨s, rfl, rfl, h1, rfl⟩ |
    ⟨s, rfl, rfl, h1, rfl⟩ | ⟨s, rfl, rfl, h1, rfl⟩ | ⟨s, rfl, rfl, h1, rfl⟩ |
    ⟨s, rfl, rfl, h1, rfl⟩ | ⟨k, rfl, rfl, rfl⟩ <;>
    first
      | rfl
      | exact absurd rfl hne

/-- A token other than `dtTok (some 0)` leaves `datatype0` unchanged. -/
theorem matchTok_dt0_other :
    ∀ (p : PatTok) (l : LineTok) (st0 st1 : MatchSt),
      matchTok p l st0 = some st1 → p ≠ PatTok.dtTok (some 0) →
      st1.dt0 = st0.dt0 := by
  intro p l st0 st1 h hne
  rcases matchTok_spec p l st0 st1 h with
    ⟨s, rfl, rfl, rfl⟩ | ⟨m, c, d, rfl, rfl, h1, h2, rfl⟩ |
    ⟨m, c, sym, rfl, rfl, h1, h2, rfl⟩ | ⟨s, rfl, rfl, h1, rfl⟩ |
    ⟨s, rfl, rfl, h1, rfl⟩ | ⟨s, rfl, rfl, h1, rfl⟩ | ⟨s, rfl, rfl, h1, rfl⟩ |
    ⟨s, rfl, rfl, h1, rfl⟩ | ⟨k, rfl, rfl, rfl⟩ <;>
    first
      | rfl
      | exact absurd rfl hne

/-- A token other than `dtTok (some 1)` leaves `datatype1` unchanged. -/
theorem matchTok_dt1_other :
    ∀ (p : PatTok) (l : LineTok) (st0 st1 : MatchSt),
      matchTok p l st0 = some st1 → p ≠ PatTok.dtTok (some 1) →
      st1.dt1 = st0.dt1 := by
  intro p l st0 st1 h hne
  rcases matchTok_spec p l st0 st1 h with
    ⟨s, rfl, rfl, rfl⟩ | ⟨m, c, d, rfl, rfl, h1, h2, rfl⟩ |
    ⟨m, c, sym, rfl, rfl, h1, h2, rfl⟩ | ⟨s, rfl, rfl, h1, rfl⟩ |
    ⟨s, rfl, rfl, h1, rfl⟩ | ⟨s, rfl, rfl, h1, rfl⟩ | ⟨s, rfl, rfl, h1, rfl⟩ |
    ⟨s, rfl, rfl, h1, rfl⟩ | ⟨k, rfl, rfl, rfl⟩ <;>
    first
      | rfl
      | exact absurd rfl hne

/-- A token other than `dtTok (some 2)` leaves `datatype2` unchanged. -/
theorem matchTok_dt2_other :
    ∀ (p : PatTok) (l : LineTok) (st0 st1 : MatchSt),
      matchTok p l st0 = some st1 → p ≠ PatTok.dtTok (some 2) →
      st1.dt2 = st0.dt2 := by
  intro p l st0 st1 h hne
  rcases matchTok_spec p l st0 st1 h with
    ⟨s, rfl, rfl, rfl⟩ | ⟨m, c, d, rfl, rfl, h1, h2, rfl⟩ |
    ⟨m, c, sym, rfl, rfl, h1, h2, rfl⟩ | ⟨s, rfl, rfl, h1, rfl⟩ |
    ⟨s, rfl, rfl, h1, rfl⟩ | ⟨s, rfl, rfl, h1, rfl⟩ | ⟨s, rfl, rfl, h1, rfl⟩ |
    ⟨s, rfl, rfl, h1, rfl⟩ | ⟨k, rfl, rfl, rfl⟩ <;>
    first
      | rfl
      | exact absurd rfl hne

/-- A token other than `immP` leaves the immediate group unchanged. -/
theorem matchTok_imm_other :
    ∀ (p : PatTok) (l : LineTok) (st0 st1 : MatchSt),
      matchTok p l st0 = some st1 → p ≠ PatTok.immP → st1.imm = st0.imm := by
  intro p l st0 st1 h hne
  rcases matchTok_spec p l st0 st1 h with
    ⟨s, rfl, rfl, rfl⟩ | ⟨m, c, d, rfl, rfl, h1, h2, rfl⟩ |
    ⟨m, c, sym, rfl, rfl, h1, h2, rfl⟩ | ⟨s, rfl, rfl, h1, rfl⟩ |
    ⟨s, rfl, rfl, h1, rfl⟩ | ⟨s, rfl, rfl, h1, rfl⟩ | ⟨s, rfl, rfl, h1, rfl⟩ |
    ⟨s, rfl, rfl, h1, rfl⟩ | ⟨k, rfl, rfl, rfl⟩ <;>
    first
      | rfl
      | exact absurd rfl hne

/-- A token other than `indexP` leaves the index group unchanged. -/
theorem matchTok_index_other :
    ∀ (p : PatTok) (l : LineTok) (st0 st1 : MatchSt),
      matchTok p l st0 = some st1 → p ≠ PatTok.indexP → st1.index = st0.index := by
  intro p l st0 st1 h hne
  rcases matchTok_spec p l st0 st1 h with
    ⟨s, rfl, rfl, rfl⟩ | ⟨m, c, d, rfl, rfl, h1, h2, rfl⟩ |
    ⟨m, c, sym, rfl, rfl, h1, h2, rfl⟩ | ⟨s, rfl, rfl, h1, rfl⟩ |
    ⟨s, rfl, rfl, h1, rfl⟩ | ⟨s, rfl, rfl, h1, rfl⟩ | ⟨s, rfl, rfl, h1, rfl⟩ |
    ⟨s, rfl, rfl, h1, rfl⟩ | ⟨k, rfl, rfl, rfl⟩ <;>
    first
      | rfl
      | exact absurd rfl hne

/-- `dtTok none` always records the plain datatype group. -/
theorem matchTok_dtP_set (l : LineTok) (st0 st1 : MatchSt)
    (h : matchTok (PatTok.dtTok none) l st0 = some st1) :
    (st1.dtP).isSome = true := by
  cases l <;> simp [matchTok] at h
  case dt s =>
    rcases h with ⟨h1, rfl⟩
    rfl

/-- `dtTok (some 0)` always records `datatype0`. -/
theorem matchTok_dt0_set (l : LineTok) (st0 st1 : MatchSt)
    (h : matchTok (PatTok.dtTok (some 0)) l st0 = some st1) :
    (st1.dt0).isSome = true := by
  cases l <;> simp [matchTok] at h
  case dt s =>
    rcases h with ⟨h1, rfl⟩
    rfl

/-- `dtTok (some 1)` always records `datatype1`. -/
theorem matchTok_dt1_set (l : LineTok) (st0 st1 : MatchSt)
    (h : matchTok (PatTok.dtTok (some 1)) l st0 = some st1) :
    (st1.dt1).isSome = true := by
  cases l <;> simp [matchTok] at h
  case dt s =>
    rcases h with ⟨h1, rfl⟩
    rfl

/-- `dtTok (some 2)` always records `datatype2`. -/
theorem matchTok_dt2_set (l : LineTok) (st0 st1 : MatchSt)
    (h : matchTok (PatTok.dtTok (some 2)) l st0 = some st1) :
    (st1.dt2).isSome = true := by
  cases l <;> simp [matchTok] at h
  case dt s =>
    rcases h with ⟨h1, rfl⟩
    rfl

/-- `immP` always records the immediate group. -/
theorem matchTok_imm_set (l : LineTok) (st0 st1 : MatchSt)
    (h : matchTok PatTok.immP l st0 = some st1) : (st1.imm).isSome = true := by
  cases l <;> simp [matchTok] at h
  case immTok s =>
    rcases h with ⟨h1, rfl⟩
    rfl

/-- `indexP` always records the index group. -/
theorem matchTok_index_set (l : LineTok) (st0 st1 : MatchSt)
    (h : matchTok PatTok.indexP l st0 = some st1) : (st1.index).isSome = true := by
  cases l <;> simp [matchTok] at h
  case indexTok k =>
    rcases h with rfl
    rfl

/-- `reg n` always records a capture for `n`. -/
theorem matchTok_regs_set (n : String) (l : LineTok) (st0 st1 : MatchSt)
    (h : matchTok (PatTok.reg n) l st0 = some st1) :
    (st1.regs n).isSome = true := by
  cases l <;> simp [matchTok] at h
  case regNum c d =>
    rcases h with ⟨h1, rfl⟩
    simp [setReg_regs]
  case regSym c sym =>
    rcases h with ⟨h1, rfl⟩
    simp [setReg_regs]

/-- Absence of a register token leaves its capture untouched (applied
form). -/
theorem matchPattern_regs (n : String) (ps : List PatTok) (ls : List LineTok)
    (st st2 : MatchSt) (h : matchPattern ps ls st = some st2) :
    (PatTok.reg n ∈ ps → (st2.regs n).isSome = true) ∧
    (PatTok.reg n ∉ ps → st2.regs n = st.regs n) :=
  matchPattern_field_gen (fun st => st.regs n) (PatTok.reg n)
    (matchTok_regs_other n) (matchTok_regs_set n) ps ls st st2 h

/-- Presence/absence of the plain datatype group (applied form). -/
theorem matchPattern_dtP (ps : List PatTok) (ls : List LineTok)
    (st st2 : MatchSt) (h : matchPattern ps ls st = some st2) :
    (PatTok.dtTok none ∈ ps → (st2.dtP).isSome = true) ∧
    (PatTok.dtTok none ∉ ps → st2.dtP = st.dtP) :=
  matchPattern_field_gen (fun st => st.dtP) (PatTok.dtTok none)
    matchTok_dtP_other matchTok_dtP_set ps ls st st2 h

/-- Presence/absence of `datatype0` (applied form). -/
theorem matchPattern_dt0 (ps : List PatTok) (ls : List LineTok)
    (st st2 : MatchSt) (h : matchPattern ps ls st = some st2) :
    (PatTok.dtTok (some 0) ∈ ps → (st2.dt0).isSome = true) ∧
    (PatTok.dtTok (some 0) ∉ ps → st2.dt0 = st.dt0) :=
  matchPattern_field_gen (fun st => st.dt0) (PatTok.dtTok (some 0))
    matchTok_dt0_other matchTok_dt0_set ps ls st st2 h

/-- Presence/absence of `datatype1` (applied form). -/
theorem matchPattern_dt1 (ps : List PatTok) (ls : List LineTok)
    (st st2 : MatchSt) (h : matchPattern ps ls st = some st2) :
    (PatTok.dtTok (some 1) ∈ ps → (st2.dt1).isSome = true) ∧
    (PatTok.dtTok (some 1) ∉ ps → st2.dt1 = st.dt1) :=
  matchPattern_field_gen (fun st => st.dt1) (PatTok.dtTok (some 1))
    matchTok_dt1_other matchTok_dt1_set ps ls st st2 h

/-- Presence/absence of `datatype2` (applied form). -/
theorem matchPattern_dt2 (ps : List PatTok) (ls : List LineTok)
    (st st2 : MatchSt) (h : matchPattern ps ls st = some st2) :
    (PatTok.dtTok (some 2) ∈ ps → (st2.dt2).isSome = true) ∧
    (PatTok.dtTok (some 2) ∉ ps → st2.dt2 = st.dt2) :=
  matchPattern_field_gen (fun st => st.dt2) (PatTok.dtTok (some 2))
    matchTok_dt2_other matchTok_dt2_set ps ls st st2 h

/-- Presence/absence of the immediate group (applied form). -/
theorem matchPattern_imm (ps : List PatTok) (ls : List LineTok)
    (st st2 : MatchSt) (h : matchPattern ps ls st = some st2) :
    (PatTok.immP ∈ ps → (st2.imm).isSome = true) ∧
    (PatTok.immP ∉ ps → st2.imm = st.imm) :=
  matchPattern_field_gen (fun st => st.imm) PatTok.immP
    matchTok_imm_other matchTok_imm_set ps ls st st2 h

/-- Presence/absence of the index group (applied form). -/
theorem matchPattern_index (ps : List PatTok) (ls : List LineTok)
    (st st2 : MatchSt) (h : matchPattern ps ls st = some st2) :
    (PatTok.indexP ∈ ps → (st2.index).isSome = true) ∧
    (PatTok.indexP ∉ ps → st2.index = st.index) :=
  matchPattern_field_gen (fun st => st.index) PatTok.indexP
    matchTok_index_other matchTok_index_set ps ls st st2 h

/-- A fragment satisfying `TokSpec` matches its token from any
`groupdict`. -/
theorem matchTok_of_TokSpec {st : MatchSt} {p : PatTok} {tok : LineTok}
    (h : TokSpec st p tok) (st0 : MatchSt) :
    ∃ st1, matchTok p tok st0 = some st1 := by
  cases p with
  | lit s =>
    rw [show tok = LineTok.lit s from h]
    exact ⟨st0, by simp [matchTok]⟩
  | reg n =>
    obtain ⟨d, hd, hdig, c, rfl, hletter⟩ := h
    exact ⟨setReg st0 n d, by simp [matchTok, hletter, hdig]⟩
  | dtTok idx =>
    rcases idx with _ | i
    · obtain ⟨s, hs, rfl, hlang⟩ := h
      exact ⟨{ st0 with dtP := some (pyUpper (pyLower s)) }, by simp [matchTok, hlang]⟩
    · rcases i with _ | i
      · obtain ⟨s, hs, rfl, hlang⟩ := h
        exact ⟨{ st0 with dt0 := some (pyUpper (pyLower s)) }, by simp [matchTok, hlang]⟩
      · rcases i with _ | i
        · obtain ⟨s, hs, rfl, hlang⟩ := h
          exact ⟨{ st0 with dt1 := some (pyUpper (pyLower s)) }, by simp [matchTok, hlang]⟩
        · rcases i with _ | i
          · obtain ⟨s, hs, rfl, hlang⟩ := h
            exact ⟨{ st0 with dt2 := some (pyUpper (pyLower s)) }, by simp [matchTok, hlang]⟩
          · obtain ⟨s, hs, -, -⟩ := h
            exact Option.noConfusion hs
  | immP =>
    obtain ⟨s, hs, rfl, hlang⟩ := h
    exact ⟨{ st0 with imm := some s }, by simp [matchTok, hlang]⟩
  | indexP =>
    obtain ⟨k, hk, rfl⟩ := h
    exact ⟨{ st0 with index := some k }, by simp [matchTok]⟩

/-- A line emitted by `write` re-matches the whole pattern from any
starting `groupdict`. -/
theorem rematch_exists (st : MatchSt) :
    ∀ (ps : List PatTok) (ls2 : List LineTok),
      List.Forall₂ (TokSpec st) ps ls2 → ∀ st0 : MatchSt,
      ∃ st1, matchPattern ps ls2 st0 = some st1 := by
  intro ps ls2 hf
  induction hf with
  | nil => exact fun st0 => ⟨st0, rfl⟩
  | cons hspec htail ih =>
    intro st0
    obtain ⟨stm, hstm⟩ := matchTok_of_TokSpec hspec st0
    obtain ⟨st1, hst1⟩ := ih stm
    refine ⟨st1, ?_⟩
    simp only [matchPattern, hstm]
    exact hst1

/-- Generic field lemma for the re-match: a group re-captured from the
emitted line takes the prescribed value; an untouched group keeps the
starting value. -/
theorem rematch_field_gen {γ : Type} (F : MatchSt → Option γ) (tk : PatTok)
    (st : MatchSt) (val : Option γ)
    (hF : ∀ p l st0 st1, matchTok p l st0 = some st1 → p ≠ tk → F st1 = F st0)
    (hFset : ∀ l st0 st1, matchTok tk l st0 = some st1 → TokSpec st tk l →
       F st1 = val) :
    ∀ (ps : List PatTok) (ls2 : List LineTok),
      List.Forall₂ (TokSpec st) ps ls2 →
      ∀ (st0 st1 : MatchSt), matchPattern ps ls2 st0 = some st1 →
      (tk ∈ ps → F st1 = val) ∧ (tk ∉ ps → F st1 = F st0) := by
  intro ps ls2 hf
  induction hf with
  | nil =>
    intro st0 st1 h
    simp only [matchPattern, Option.some.injEq] at h
    subst h
    exact ⟨fun htok => absurd htok (List.not_mem_nil tk), fun _ => rfl⟩
  | @cons p tok ps ls2 hspec htail ih =>
    intro st0 st1 h
    obtain ⟨stm, hstm, hrest⟩ := matchPattern_cons_inv h
    obtain ⟨ihp, iha⟩ := ih stm st1 hrest
    constructor
    · intro htok
      rcases List.mem_cons.mp htok with hh | htk
      · by_cases htl : tk ∈ ps
        · exact ihp htl
        · rw [iha htl]
          subst hh
          exact hFset tok st0 stm hstm hspec
      · exact ihp htk
    · intro htok
      have hp : p ≠ tk := fun he => htok (he ▸ List.mem_cons_self p ps)
      rw [iha (fun hm => htok (List.mem_cons_of_mem p hm)),
        hF p tok st0 stm hstm hp]

/-- Re-capturing a register yields the original capture. -/
theorem rematch_regs_set (st : MatchSt) (n : String) :
    ∀ (l : LineTok) (st0 st1 : MatchSt),
      matchTok (PatTok.reg n) l st0 = some st1 → TokSpec st (PatTok.reg n) l →
      st1.regs n = st.regs n := by
  intro l st0 st1 h hspec
  obtain ⟨d, hd, hdig, c, rfl, hletter⟩ := hspec
  simp [matchTok, hletter, hdig] at h
  rw [← h, setReg_regs, if_pos rfl, hd]

/-- Re-capturing the plain datatype yields the upper-cased lowering of
the original capture. -/
theorem rematch_dtP_set (st : MatchSt) :
    ∀ (l : LineTok) (st0 st1 : MatchSt),
      matchTok (PatTok.dtTok none) l st0 = some st1 →
      TokSpec st (PatTok.dtTok none) l →
      st1.dtP = st.dtP.map (fun s => pyUpper (pyLower s)) := by
  intro l st0 st1 h hspec
  obtain ⟨s, hs, rfl, hlang⟩ := hspec
  simp [matchTok, hlang] at h
  rw [← h, hs]
  rfl

/-- Re-capturing `datatype0` yields the upper-cased lowering of the
original capture. -/
theorem rematch_dt0_set (st : MatchSt) :
    ∀ (l : LineTok) (st0 st1 : MatchSt),
      matchTok (PatTok.dtTok (some 0)) l st0 = some st1 →
      TokSpec st (PatTok.dtTok (some 0)) l →
      st1.dt0 = st.dt0.map (fun s => pyUpper (pyLower s)) := by
  intro l st0 st1 h hspec
  obtain ⟨s, hs, rfl, hlang⟩ := hspec
  simp [matchTok, hlang] at h
  rw [← h, show st.dt0 = some s from hs]
  rfl

/-- Re-capturing `datatype1` yields the upper-cased lowering of the
original capture. -/
theorem rematch_dt1_set (st : MatchSt) :
    ∀ (l : LineTok) (st0 st1 : MatchSt),
      matchTok (PatTok.dtTok (some 1)) l st0 = some st1 →
      TokSpec st (PatTok.dtTok (some 1)) l →
      st1.dt1 = st.dt1.map (fun s => pyUpper (pyLower s)) := by
  intro l st0 st1 h hspec
  obtain ⟨s, hs, rfl, hlang⟩ := hspec
  simp [matchTok, hlang] at h
  rw [← h, show st.dt1 = some s from hs]
  rfl

/-- Re-capturing `datatype2` yields the upper-cased lowering of the
original capture. -/
theorem rematch_dt2_set (st : MatchSt) :
    ∀ (l : LineTok) (st0 st1 : MatchSt),
      matchTok (PatTok.dtTok (some 2)) l st0 = some st1 →
      TokSpec st (PatTok.dtTok (some 2)) l →
      st1.dt2 = st.dt2.map (fun s => pyUpper (pyLower s)) := by
  intro l st0 st1 h hspec
  obtain ⟨s, hs, rfl, hlang⟩ := hspec
  simp [matchTok, hlang] at h
  rw [← h, show st.dt2 = some s from hs]
  rfl

/-- Re-capturing the immediate yields the original capture. -/
theorem rematch_imm_set (st : MatchSt) :
    ∀ (l : LineTok) (st0 st1 : MatchSt),
      matchTok PatTok.immP l st0 = some st1 → TokSpec st PatTok.immP l →
      st1.imm = st.imm := by
  intro l st0 st1 h hspec
  obtain ⟨s, hs, rfl, hlang⟩ := hspec
  simp [matchTok, hlang] at h
  rw [← h, hs]

/-- Re-capturing the index yields the original capture. -/
theorem rematch_index_set (st : MatchSt) :
    ∀ (l : LineTok) (st0 st1 : MatchSt),
      matchTok PatTok.indexP l st0 = some st1 → TokSpec st PatTok.indexP l →
      st1.index = st.index := by
  intro l st0 st1 h hspec
  obtain ⟨k, hk, rfl⟩ := hspec
  simp [matchTok] at h
  rw [← h, hk]

/-- Inversion of a successful `regValue`. -/
theorem regValue_inv {st : MatchSt} {n a : String}
    (h : regValue st n = some a) :
    ∃ ty cap, infer_register_type n = some ty ∧ st.regs n = some cap ∧
      a = toReg ty cap := by
  unfold regValue at h
  cases hty : infer_register_type n with
  | none => rw [hty] at h; simp at h
  | some ty =>
    rw [hty] at h
    cases hcap : st.regs n with
    | none => rw [hcap] at h; simp at h
    | some cap =>
      rw [hcap] at h
      simp at h
      exact ⟨ty, cap, rfl, rfl, h.symm⟩

/-- A successful `mapM` succeeds on each member. -/
theorem mapM_option_mem_isSome {α β : Type} {f : α → Option β} :
    ∀ {l : List α} {res : List β}, l.mapM f = some res →
      ∀ {a : α}, a ∈ l → (f a).isSome = true := by
  intro l
  induction l with
  | nil => intro res h a ha; simp at ha
  | cons x l ih =>
    intro res h a ha
    obtain ⟨b, bs, hfa, hfl, rfl⟩ := mapM_option_cons_inv h
    rcases List.mem_cons.mp ha with rfl | ha2
    · simp [hfa]
    · exact ih hfl ha2

/-- `mkTriples` distributes over appends of equal length. -/
theorem mkTriples_append :
    ∀ (p1 : List (String × Option RegisterType)) (a1 : List String)
      (p2 : List (String × Option RegisterType)) (a2 : List String),
      p1.length = a1.length →
      mkTriples (p1 ++ p2) (a1 ++ a2) = mkTriples p1 a1 ++ mkTriples p2 a2 := by
  intro p1
  induction p1 with
  | nil =>
    intro a1 p2 a2 hlen
    cases a1 with
    | nil => rfl
    | cons a as => simp at hlen
  | cons p ps ih =>
    intro a1 p2 a2 hlen
    cases a1 with
    | nil => simp at hlen
    | cons a as =>
      obtain ⟨n, ty⟩ := p
      simp only [List.cons_append, mkTriples, List.length_cons,
        List.append_eq] at hlen ⊢
      rw [ih as p2 a2 (by omega)]

/-- Skipping a block of triples whose names differ from the query. -/
theorem lookupTriple_skip :
    ∀ (b1 b2 : List (String × String × Option RegisterType)) (n : String),
      (∀ e ∈ b1, e.1 ≠ n) →
      lookupTriple (b1 ++ b2) n = lookupTriple b2 n := by
  intro b1
  induction b1 with
  | nil => intro b2 n _; rfl
  | cons e b1 ih =>
    intro b2 n h
    obtain ⟨nm, a, ty⟩ := e
    simp only [List.cons_append, lookupTriple]
    rw [if_neg (h (nm, a, ty) (by simp))]
    exact ih b2 n (fun e2 he => h e2 (by simp [he]))

/-- Entries of a `mkTriples` block carry the block's names. -/
theorem mkTriples_not_name (n : String) :
    ∀ (pairs : List (String × Option RegisterType)) (args : List String),
      (∀ p ∈ pairs, p.1 ≠ n) → ∀ e ∈ mkTriples pairs args, e.1 ≠ n := by
  intro pairs
  induction pairs with
  | nil =>
    intro args h e he
    cases args <;> simp [mkTriples] at he
  | cons p ps ih =>
    intro args h e he
    obtain ⟨nm, ty⟩ := p
    cases args with
    | nil => simp [mkTriples] at he
    | cons a as =>
      simp only [mkTriples, List.mem_cons] at he
      rcases he with rfl | he
      · exact h (nm, ty) (by simp)
      · exact ih as (fun q hq => h q (by simp [hq])) e he

/-- Looking a name up inside a `mkTriples` block built from its own
`regValue` results. -/
theorem lookupTriple_mkTriples_found (st : MatchSt) :
    ∀ (names args : List String) (n : String)
      (rest : List (String × String × Option RegisterType)),
      names.mapM (regValue st) = some args → n ∈ names →
      ∃ ty cap, infer_register_type n = some ty ∧ st.regs n = some cap ∧
        lookupTriple
          (mkTriples (names.map (fun m => (m, infer_register_type m))) args ++
            rest) n = some (toReg ty cap, ty) := by
  intro names
  induction names with
  | nil => intro args n rest h hn; simp at hn
  | cons m ms ih =>
    intro args n rest h hn
    obtain ⟨b, bs, hfa, hfl, rfl⟩ := mapM_option_cons_inv h
    by_cases hmn : m = n
    · subst hmn
      obtain ⟨ty, cap, hty, hcap, hb⟩ := regValue_inv hfa
      refine ⟨ty, cap, hty, hcap, ?_⟩
      simp only [List.map_cons, mkTriples, List.cons_append, lookupTriple,
        if_pos rfl]
      rw [hty]
      simp [hb]
    · rcases List.mem_cons.mp hn with rfl | hn2
      · exact absurd rfl hmn
      · obtain ⟨ty, cap, hty, hcap, hret⟩ := ih bs n rest hfl hn2
        refine ⟨ty, cap, hty, hcap, ?_⟩
        simp only [List.map_cons, mkTriples, List.cons_append, lookupTriple]
        rw [if_neg hmn]
        exact hret

/-- The flags pseudo-register has no inferable register class. -/
theorem infer_flags_none : infer_register_type "flags" = none := by decide

/-- The bridge from a successful parse to the emitter's operand lookup:
any operand name declared by the variant resolves, in the `write` zip
list, to the parsed operand string and its inferred class. -/
theorem writeLookup_bridge (v : Variant) (st : MatchSt)
    (ain aout aio : List String)
    (hin : v.inputs.mapM (regValue st) = some ain)
    (hout : v.outputs.mapM (regValue st) = some aout)
    (hio : v.in_outs.mapM (regValue st) = some aio)
    (inst : AInst)
    (hargs_in : inst.args_in = ain)
    (hargs_out : inst.args_out =
      aout ++ (if v.modifiesFlags then ["flags"] else []))
    (hargs_io : inst.args_in_out = aio)
    (n : String) (hn : n ∈ v.inputs ∨ n ∈ v.outputs ∨ n ∈ v.in_outs) :
    ∃ ty cap, infer_register_type n = some ty ∧ st.regs n = some cap ∧
      lookupTriple (writePairs v inst) n = some (toReg ty cap, ty) := by
  by_cases h1 : n ∈ v.inputs
  · obtain ⟨ty, cap, hty, hcap, hret⟩ := lookupTriple_mkTriples_found st
      v.inputs ain n
      (mkTriples (outputTys v) inst.args_out ++
        mkTriples (v.in_outs.map (fun m => (m, infer_register_type m)))
          inst.args_in_out) hin h1
    refine ⟨ty, cap, hty, hcap, ?_⟩
    unfold writePairs
    rw [hargs_in, List.append_assoc]
    exact hret
  · have hskip1 : ∀ e ∈ mkTriples
        (v.inputs.map (fun m => (m, infer_register_type m))) inst.args_in,
        e.1 ≠ n := by
      apply mkTriples_not_name
      intro p hp
      obtain ⟨m, hm, rfl⟩ := List.mem_map.mp hp
      exact fun he => h1 (he ▸ hm)
    by_cases h2 : n ∈ v.outputs
    · obtain ⟨ty, cap, hty, hcap, hret⟩ := lookupTriple_mkTriples_found st
        v.outputs aout n
        (mkTriples
            (if v.modifiesFlags then [("flags", some RegisterType.Flags)] else [])
            (if v.modifiesFlags then ["flags"] else []) ++
          mkTriples (v.in_outs.map (fun m => (m, infer_register_type m))) aio)
        hout h2
      refine ⟨ty, cap, hty, hcap, ?_⟩
      unfold writePairs
      rw [List.append_assoc, lookupTriple_skip _ _ n hskip1, hargs_out, hargs_io]
      have hlen : (v.outputs.map
          (fun m => (m, infer_register_type m))).length = aout.length := by
        rw [List.length_map]
        exact (mapM_option_forall2 _ _ _ hout).length_eq
      unfold outputTys
      rw [mkTriples_append _ _ _ _ hlen, List.append_assoc]
      exact hret
    · have h3 : n ∈ v.in_outs := by
        rcases hn with h | h | h
        · exact absurd h h1
        · exact absurd h h2
        · exact h
      have hnf : n ≠ "flags" := by
        intro he
        have hs := mapM_option_mem_isSome hio h3
        rw [he] at hs
        unfold regValue at hs
        rw [infer_flags_none] at hs
        simp at hs
      have hskip2 : ∀ e ∈ mkTriples (outputTys v) inst.args_out, e.1 ≠ n := by
        apply mkTriples_not_name
        intro p hp
        unfold outputTys at hp
        rcases List.mem_append.mp hp with hp | hp
        · obtain ⟨m, hm, rfl⟩ := List.mem_map.mp hp
          exact fun he => h2 (he ▸ hm)
        · by_cases hf : v.modifiesFlags
          · rw [if_pos hf] at hp
            simp only [List.mem_singleton] at hp
            rw [hp]
            exact fun he => hnf he.symm
          · rw [if_neg hf] at hp
            simp at hp
      obtain ⟨ty, cap, hty, hcap, hret⟩ := lookupTriple_mkTriples_found st
        v.in_outs aio n [] hio h3
      refine ⟨ty, cap, hty, hcap, ?_⟩
      unfold writePairs
      rw [List.append_assoc, lookupTriple_skip _ _ n hskip1,
        lookupTriple_skip _ _ n hskip2, hargs_io, ← List.append_nil
          (mkTriples (v.in_outs.map (fun m => (m, infer_register_type m))) aio)]
      exact hret

/-- Inversion of a successful `AArch64Instruction.parse`. -/
theorem parse_inv {v : Variant} {line : List LineTok} {inst : AInst}
    (h : AArch64Instruction.parse v line = some inst) :
    ∃ st ain aout aio,
      matchPattern v.pattern line initSt = some st ∧
      v.inputs.mapM (regValue st) = some ain ∧
      v.outputs.mapM (regValue st) = some aout ∧
      v.in_outs.mapM (regValue st) = some aio ∧
      inst = { args_in := ain
               args_out := aout ++ (if v.modifiesFlags then ["flags"] else [])
               args_in_out := aio
               datatype := buildDatatype st
               index := st.index
               immediate := st.imm } := by
  unfold AArch64Instruction.parse at h
  simp only [bind, Option.bind_eq_some, pure, Option.some.injEq] at h
  obtain ⟨st, hm, ain, ha, aout, hb, aio, hc, hinst⟩ := h
  exact ⟨st, ain, aout, aio, hm, ha, hb, hc, hinst.symm⟩

/-- The plain-`<dt>` language is closed under lowering then uppering,
and re-lowering recovers the lowering. -/
theorem dtStrict_roundtrip {s : String} (h : isDTypeStrict s = true) :
    isDTypeStrict (pyUpper (pyLower s)) = true ∧
    pyLower (pyUpper (pyLower s)) = pyLower s := by
  have hall : ∀ x ∈ dtStringsStrict,
      isDTypeStrict (pyUpper (pyLower x)) = true ∧
      pyLower (pyUpper (pyLower x)) = pyLower x := by decide
  exact hall s (of_decide_eq_true h)

/-- The indexed-`<dtI>` language is closed under lowering then
uppering. -/
theorem dtOpt_roundtrip {s : String} (h : isDTypeOpt s = true) :
    isDTypeOpt (pyUpper (pyLower s)) = true ∧
    pyLower (pyUpper (pyLower s)) = pyLower s := by
  have hall : ∀ x ∈ dtStringsOpt,
      isDTypeOpt (pyUpper (pyLower x)) = true ∧
      pyLower (pyUpper (pyLower x)) = pyLower x := by decide
  exact hall s (of_decide_eq_true h)

/-- `s[1:]` after prefixing a character is `s` again. -/
theorem pyTail_pyCons (c : Char) (s : String) : pyTail (pyCons c s) = s := rfl

/-- `s[0]` after prefixing a character is that character. -/
theorem pyFirstChar_pyCons (c : Char) (s : String) :
    pyFirstChar (pyCons c s) = some c := rfl

/-- Elimination for a true Boolean disjunction. -/
theorem bool_or_split {a b : Bool} (h : (a || b) = true) :
    a = true ∨ b = true := by
  simpa using h

/-- Characterization of a successful register-type inference. -/
theorem infer_inv {n : String} {ty : RegisterType}
    (h : infer_register_type n = some ty) :
    (ty = RegisterType.GPR ∨ ty = RegisterType.Neon) ∧
    ∃ pl, pyFirstChar n = some pl := by
  cases hc : pyFirstChar n with
  | none =>
    unfold infer_register_type at h
    rw [hc] at h
    exact Option.noConfusion h
  | some c =>
    unfold infer_register_type at h
    rw [hc] at h
    have h2 : (if (c.toUpper = 'X' || c.toUpper = 'W') = true then
        some RegisterType.GPR
        else if (c.toUpper = 'V' || c.toUpper = 'Q') = true then
          some RegisterType.Neon
        else none) = some ty := h
    have hd : ty = RegisterType.GPR ∨ ty = RegisterType.Neon := by
      by_cases hx : (c.toUpper = 'X' || c.toUpper = 'W') = true
      · rw [if_pos hx] at h2
        cases h2
        exact Or.inl rfl
      · rw [if_neg hx] at h2
        by_cases hv : (c.toUpper = 'V' || c.toUpper = 'Q') = true
        · rw [if_pos hv] at h2
          cases h2
          exact Or.inr rfl
        · rw [if_neg hv] at h2
          exact Option.noConfusion h2
    exact ⟨hd, c, rfl⟩

/-- One or two digits are, in particular, a nonempty digit string. -/
theorem isDigitStr_of_digits12 {d : String} (h : isDigits12 d = true) :
    isDigitStr d = true := by
  unfold isDigits12 at h
  unfold isDigitStr
  rw [Bool.and_eq_true] at h
  obtain ⟨h1, h2⟩ := h
  have hl : d.toList.length = 1 ∨ d.toList.length = 2 := by
    rcases bool_or_split h1 with h1 | h1
    · exact Or.inl (by simpa using h1)
    · exact Or.inr (by simpa using h1)
  have hne : ¬d.toList.isEmpty = true := by
    intro he
    rw [List.isEmpty_iff.mp he] at hl
    simp at hl
  rw [Bool.and_eq_true]
  exact ⟨by simpa using hne, h2⟩

/-- The emitted text for a concrete register capture is classified as a
concrete register again. -/
theorem classify_pyCons {c : Char} {d : String} (h : isDigits12 d = true) :
    classifyRegText (pyCons c d) = LineTok.regNum c d := by
  unfold isDigits12 at h
  rw [Bool.and_eq_true] at h
  obtain ⟨h1, h2⟩ := h
  have hlen : d.toList.length = 1 ∨ d.toList.length = 2 := by
    rcases bool_or_split h1 with h1 | h1
    · exact Or.inl (by simpa using h1)
    · exact Or.inr (by simpa using h1)
  have hcond : (!(d.toList.isEmpty) && decide (d.toList.length ≤ 2) &&
      d.toList.all Char.isDigit) = true := by
    rw [Bool.and_eq_true, Bool.and_eq_true]
    refine ⟨⟨?_, ?_⟩, h2⟩
    · have hne : ¬d.toList.isEmpty = true := by
        intro he
        rw [List.isEmpty_iff.mp he] at hlen
        simp at hlen
      simpa using hne
    · exact decide_eq_true (by omega)
  have hred : classifyRegText (pyCons c d) =
      (if (!(d.toList.isEmpty) && decide (d.toList.length ≤ 2) &&
          d.toList.all Char.isDigit) = true then
        LineTok.regNum c (String.mk d.toList)
      else LineTok.word (pyCons c d)) := rfl
  rw [hred, if_pos hcond]
  rfl

/-- `toReg` on a digit capture prefixes the canonical class letter. -/
theorem toReg_digits {cap : String} (hdig : isDigitStr cap = true) :
    toReg RegisterType.GPR cap = pyCons 'x' cap ∧
    toReg RegisterType.Neon cap = pyCons 'v' cap := by
  constructor <;> simp [toReg, hdig]

/-- The replacement built for a concretely-captured register operand:
the placeholder's lowered letter followed by the captured digits. -/
theorem bpr_concrete {n : String} {pl : Char} (hpl : pyFirstChar n = some pl)
    {ty : RegisterType} (hty : ty = RegisterType.GPR ∨ ty = RegisterType.Neon)
    {cap : String} (hdig : isDigitStr cap = true) :
    buildPatternReplacement n ty (toReg ty cap) = some (pyCons pl.toLower cap) := by
  rcases hty with rfl | rfl
  · rw [(toReg_digits hdig).1]
    have hb : buildPatternReplacement n RegisterType.GPR (pyCons 'x' cap) =
        some (if pyFirstChar (pyCons 'x' cap) ≠ some 'x' then pyCons 'x' cap
              else pyCons pl.toLower (pyTail (pyCons 'x' cap))) := by
      unfold buildPatternReplacement
      rw [hpl]
    rw [hb, if_neg (by rw [pyFirstChar_pyCons]; simp), pyTail_pyCons]
  · rw [(toReg_digits hdig).2]
    have hb : buildPatternReplacement n RegisterType.Neon (pyCons 'v' cap) =
        some (if pyFirstChar (pyCons 'v' cap) ≠ some 'v' then pyCons 'v' cap
              else pyCons pl.toLower (pyTail (pyCons 'v' cap))) := by
      unfold buildPatternReplacement
      rw [hpl]
    rw [hb, if_neg (by rw [pyFirstChar_pyCons]; simp), pyTail_pyCons]

/-- A false membership test refutes membership. -/
theorem notmem_of_contains_false {α} [BEq α] [LawfulBEq α] {l : List α} {a : α}
    (h : l.contains a = false) : a ∉ l := by
  simp at h
  exact h

/-- Consequences of datatype well-formedness. -/
theorem dtWF_facts {ps : List PatTok} (h : dtWF ps = true) :
    (∀ i, PatTok.dtTok (some i) ∈ ps → PatTok.dtTok none ∉ ps) ∧
    (PatTok.dtTok (some 1) ∈ ps → PatTok.dtTok (some 0) ∈ ps) ∧
    (PatTok.dtTok (some 2) ∈ ps → PatTok.dtTok (some 1) ∈ ps) ∧
    (∀ i, PatTok.dtTok (some i) ∈ ps → i < 3) := by
  unfold dtWF at h
  rw [Bool.and_eq_true, Bool.and_eq_true, Bool.and_eq_true] at h
  obtain ⟨⟨⟨hmix, h10⟩, h21⟩, hlt⟩ := h
  refine ⟨?_, ?_, ?_, ?_⟩
  · intro i hi hnone
    rcases bool_or_split hmix with hc | hall
    · rw [Bool.not_eq_true'] at hc
      exact absurd hnone (notmem_of_contains_false hc)
    · have := List.all_eq_true.mp hall _ hi
      simp at this
  · intro hi
    rcases bool_or_split h10 with hc | hc
    · rw [Bool.not_eq_true'] at hc
      exact absurd hi (notmem_of_contains_false hc)
    · exact List.mem_of_elem_eq_true hc
  · intro hi
    rcases bool_or_split h21 with hc | hc
    · rw [Bool.not_eq_true'] at hc
      exact absurd hi (notmem_of_contains_false hc)
    · exact List.mem_of_elem_eq_true hc
  · intro i hi
    have := List.all_eq_true.mp hlt _ hi
    simpa using this

/-- Coverage of a register placeholder by the operand name lists. -/
theorem patternCovered_mem {v : Variant} (h : patternCovered v = true)
    {n : String} (hp : PatTok.reg n ∈ v.pattern) :
    n ∈ v.inputs ∨ n ∈ v.outputs ∨ n ∈ v.in_outs := by
  have := List.all_eq_true.mp h _ hp
  simp only [Bool.or_eq_true] at this
  rcases this with (hc | hc) | hc
  · exact Or.inl (List.mem_of_elem_eq_true hc)
  · exact Or.inr (Or.inl (List.mem_of_elem_eq_true hc))
  · exact Or.inr (Or.inr (List.mem_of_elem_eq_true hc))

/-- The placeholder letter, lowered, satisfies the register-letter
alternative of its own placeholder. -/
theorem matchRegLetter_lower {n : String} {pl : Char}
    (h : pyFirstChar n = some pl) : matchRegLetter n pl.toLower = true := by
  unfold matchRegLetter
  rw [h]
  simp

/-- Per-token specification of the emitter: every pattern token of a
covered, datatype-well-formed variant is emitted successfully, and the
emitted fragment stands in `TokSpec` to the original `groupdict`. -/
theorem substTok_spec {v : Variant} {line : List LineTok} {st : MatchSt}
    (hm : matchPattern v.pattern line initSt = some st)
    (hok : StOK st)
    (hcov : patternCovered v = true)
    (hwf : dtWF v.pattern = true)
    {ain aout aio : List String}
    (hin : v.inputs.mapM (regValue st) = some ain)
    (hout : v.outputs.mapM (regValue st) = some aout)
    (hio : v.in_outs.mapM (regValue st) = some aio)
    {inst : AInst}
    (hinst : inst = { args_in := ain
                      args_out := aout ++
                        (if v.modifiesFlags then ["flags"] else [])
                      args_in_out := aio
                      datatype := buildDatatype st
                      index := st.index
                      immediate := st.imm }) :
    ∀ p ∈ v.pattern, ∃ tok, substTok v inst p = some tok ∧ TokSpec st p tok := by
  subst hinst
  intro p hp
  cases p with
  | lit s => exact ⟨.lit s, rfl, rfl⟩
  | reg n =>
    have hn := patternCovered_mem hcov hp
    obtain ⟨ty, cap, hty, hcap, hlook⟩ :=
      writeLookup_bridge v st ain aout aio hin hout hio
        { args_in := ain
          args_out := aout ++ (if v.modifiesFlags then ["flags"] else [])
          args_in_out := aio
          datatype := buildDatatype st
          index := st.index
          immediate := st.imm } rfl rfl rfl n hn
    obtain ⟨htyor, pl, hpl⟩ := infer_inv hty
    have hdig : isDigits12 cap = true := hok.1 n cap hcap
    have hbpr := bpr_concrete hpl htyor (isDigitStr_of_digits12 hdig)
    refine ⟨.regNum pl.toLower cap, ?_,
      cap, hcap, hdig, pl.toLower, rfl, matchRegLetter_lower hpl⟩
    simp [substTok, hlook, hbpr, classify_pyCons hdig]
  | dtTok idx =>
    rcases idx with _ | i
    · have hdP := (matchPattern_dtP v.pattern line initSt st hm).1 hp
      obtain ⟨s, hs⟩ := Option.isSome_iff_exists.mp hdP
      have hrt := dtStrict_roundtrip (hok.2.1 s hs)
      have hdat : buildDatatype st = DtVal.one (pyLower s) := by
        simp [buildDatatype, hs]
      refine ⟨.dt (pyUpper (pyLower s)), ?_, s, hs, rfl, hrt.1⟩
      simp [substTok, hdat]
    · obtain ⟨hmixf, h10f, h21f, hltf⟩ := dtWF_facts hwf
      have hdPnone : st.dtP = none :=
        (matchPattern_dtP v.pattern line initSt st hm).2 (hmixf i hp)
      have hlt : i < 3 := hltf i hp
      interval_cases i
      · have h0 := (matchPattern_dt0 v.pattern line initSt st hm).1 hp
        obtain ⟨s0, hs0⟩ := Option.isSome_iff_exists.mp h0
        have hrt := dtOpt_roundtrip (hok.2.2.1 s0 hs0)
        have hdat : buildDatatype st =
            DtVal.many ([pyLower s0] ++ optLower st.dt1 ++ optLower st.dt2) := by
          simp [buildDatatype, hdPnone, hs0]
        refine ⟨.dt (pyUpper (pyLower s0)), ?_, s0, hs0, rfl, hrt.1⟩
        simp [substTok, hdat]
      · have h0 := (matchPattern_dt0 v.pattern line initSt st hm).1 (h10f hp)
        obtain ⟨s0, hs0⟩ := Option.isSome_iff_exists.mp h0
        have h1 := (matchPattern_dt1 v.pattern line initSt st hm).1 hp
        obtain ⟨s1, hs1⟩ := Option.isSome_iff_exists.mp h1
        have hrt := dtOpt_roundtrip (hok.2.2.2.1 s1 hs1)
        have hdat : buildDatatype st =
            DtVal.many ([pyLower s0] ++ [pyLower s1] ++ optLower st.dt2) := by
          simp [buildDatatype, hdPnone, hs0, optLower, hs1]
        refine ⟨.dt (pyUpper (pyLower s1)), ?_, s1, hs1, rfl, hrt.1⟩
        simp [substTok, hdat]
      · have h1m : PatTok.dtTok (some 1) ∈ v.pattern := h21f hp
        have h0 := (matchPattern_dt0 v.pattern line initSt st hm).1 (h10f h1m)
        obtain ⟨s0, hs0⟩ := Option.isSome_iff_exists.mp h0
        have h1 := (matchPattern_dt1 v.pattern line initSt st hm).1 h1m
        obtain ⟨s1, hs1⟩ := Option.isSome_iff_exists.mp h1
        have h2 := (matchPattern_dt2 v.pattern line initSt st hm).1 hp
        obtain ⟨s2, hs2⟩ := Option.isSome_iff_exists.mp h2
        have hrt := dtOpt_roundtrip (hok.2.2.2.2.1 s2 hs2)
        have hdat : buildDatatype st =
            DtVal.many ([pyLower s0] ++ [pyLower s1] ++ [pyLower s2]) := by
          simp [buildDatatype, hdPnone, hs0, optLower, hs1, hs2]
        refine ⟨.dt (pyUpper (pyLower s2)), ?_, s2, hs2, rfl, hrt.1⟩
        simp [substTok, hdat]
  | immP =>
    have hi := (matchPattern_imm v.pattern line initSt st hm).1 hp
    obtain ⟨s, hs⟩ := Option.isSome_iff_exists.mp hi
    refine ⟨.immTok s, ?_, s, hs, rfl, hok.2.2.2.2.2 s hs⟩
    simp [substTok, hs]
  | indexP =>
    have hi := (matchPattern_index v.pattern line initSt st hm).1 hp
    obtain ⟨k, hk⟩ := Option.isSome_iff_exists.mp hi
    refine ⟨.indexTok k, ?_, k, hk, rfl⟩
    simp [substTok, hk]

/-- Pattern-level re-match lemma for a register capture. -/
theorem rematch_pattern_regs (st : MatchSt) (n : String)
    {ps : List PatTok} {ls2 : List LineTok}
    (hf : List.Forall₂ (TokSpec st) ps ls2)
    {st0 st1 : MatchSt} (h : matchPattern ps ls2 st0 = some st1) :
    (PatTok.reg n ∈ ps → st1.regs n = st.regs n) ∧
    (PatTok.reg n ∉ ps → st1.regs n = st0.regs n) :=
  rematch_field_gen (fun s => s.regs n) (PatTok.reg n) st (st.regs n)
    (matchTok_regs_other n) (rematch_regs_set st n) ps ls2 hf st0 st1 h

/-- Pattern-level re-match lemma for the plain datatype group. -/
theorem rematch_pattern_dtP (st : MatchSt)
    {ps : List PatTok} {ls2 : List LineTok}
    (hf : List.Forall₂ (TokSpec st) ps ls2)
    {st0 st1 : MatchSt} (h : matchPattern ps ls2 st0 = some st1) :
    (PatTok.dtTok none ∈ ps →
      st1.dtP = st.dtP.map (fun s => pyUpper (pyLower s))) ∧
    (PatTok.dtTok none ∉ ps → st1.dtP = st0.dtP) :=
  rematch_field_gen (fun s => s.dtP) (PatTok.dtTok none) st
    (st.dtP.map (fun s => pyUpper (pyLower s)))
    matchTok_dtP_other (rematch_dtP_set st) ps ls2 hf st0 st1 h

/-- Pattern-level re-match lemma for `datatype0`. -/
theorem rematch_pattern_dt0 (st : MatchSt)
    {ps : List PatTok} {ls2 : List LineTok}
    (hf : List.Forall₂ (TokSpec st) ps ls2)
    {st0 st1 : MatchSt} (h : matchPattern ps ls2 st0 = some st1) :
    (PatTok.dtTok (some 0) ∈ ps →
      st1.dt0 = st.dt0.map (fun s => pyUpper (pyLower s))) ∧
    (PatTok.dtTok (some 0) ∉ ps → st1.dt0 = st0.dt0) :=
  rematch_field_gen (fun s => s.dt0) (PatTok.dtTok (some 0)) st
    (st.dt0.map (fun s => pyUpper (pyLower s)))
    matchTok_dt0_other (rematch_dt0_set st) ps ls2 hf st0 st1 h

/-- Pattern-level re-match lemma for `datatype1`. -/
theorem rematch_pattern_dt1 (st : MatchSt)
    {ps : List PatTok} {ls2 : List LineTok}
    (hf : List.Forall₂ (TokSpec st) ps ls2)
    {st0 st1 : MatchSt} (h : matchPattern ps ls2 st0 = some st1) :
    (PatTok.dtTok (some 1) ∈ ps →
      st1.dt1 = st.dt1.map (fun s => pyUpper (pyLower s))) ∧
    (PatTok.dtTok (some 1) ∉ ps → st1.dt1 = st0.dt1) :=
  rematch_field_gen (fun s => s.dt1) (PatTok.dtTok (some 1)) st
    (st.dt1.map (fun s => pyUpper (pyLower s)))
    matchTok_dt1_other (rematch_dt1_set st) ps ls2 hf st0 st1 h

/-- Pattern-level re-match lemma for `datatype2`. -/
theorem rematch_pattern_dt2 (st : MatchSt)
    {ps : List PatTok} {ls2 : List LineTok}
    (hf : List.Forall₂ (TokSpec st) ps ls2)
    {st0 st1 : MatchSt} (h : matchPattern ps ls2 st0 = some st1) :
    (PatTok.dtTok (some 2) ∈ ps →
      st1.dt2 = st.dt2.map (fun s => pyUpper (pyLower s))) ∧
    (PatTok.dtTok (some 2) ∉ ps → st1.dt2 = st0.dt2) :=
  rematch_field_gen (fun s => s.dt2) (PatTok.dtTok (some 2)) st
    (st.dt2.map (fun s => pyUpper (pyLower s)))
    matchTok_dt2_other (rematch_dt2_set st) ps ls2 hf st0 st1 h

/-- Pattern-level re-match lemma for the immediate group. -/
theorem rematch_pattern_imm (st : MatchSt)
    {ps : List PatTok} {ls2 : List LineTok}
    (hf : List.Forall₂ (TokSpec st) ps ls2)
    {st0 st1 : MatchSt} (h : matchPattern ps ls2 st0 = some st1) :
    (PatTok.immP ∈ ps → st1.imm = st.imm) ∧
    (PatTok.immP ∉ ps → st1.imm = st0.imm) :=
  rematch_field_gen (fun s => s.imm) PatTok.immP st st.imm
    matchTok_imm_other (rematch_imm_set st) ps ls2 hf st0 st1 h

/-- Pattern-level re-match lemma for the index group. -/
theorem rematch_pattern_index (st : MatchSt)
    {ps : List PatTok} {ls2 : List LineTok}
    (hf : List.Forall₂ (TokSpec st) ps ls2)
    {st0 st1 : MatchSt} (h : matchPattern ps ls2 st0 = some st1) :
    (PatTok.indexP ∈ ps → st1.index = st.index) ∧
    (PatTok.indexP ∉ ps → st1.index = st0.index) :=
  rematch_field_gen (fun s => s.index) PatTok.indexP st st.index
    matchTok_index_other (rematch_index_set st) ps ls2 hf st0 st1 h

/-- Forward composition of a successful parse from its components. -/
theorem parse_intro {v : Variant} {line : List LineTok} {st : MatchSt}
    {ain aout aio : List String}
    (hm : matchPattern v.pattern line initSt = some st)
    (hin : v.inputs.mapM (regValue st) = some ain)
    (hout : v.outputs.mapM (regValue st) = some aout)
    (hio : v.in_outs.mapM (regValue st) = some aio) :
    AArch64Instruction.parse v line = some
      { args_in := ain
        args_out := aout ++ (if v.modifiesFlags then ["flags"] else [])
        args_in_out := aio
        datatype := buildDatatype st
        index := st.index
        immediate := st.imm } := by
  unfold AArch64Instruction.parse
  rw [hm]
  show (v.inputs.mapM (regValue st)).bind (fun ain2 =>
      (v.outputs.mapM (regValue st)).bind (fun aout2 =>
        (v.in_outs.mapM (regValue st)).bind (fun aio2 =>
          some ({ args_in := ain2
                  args_out := aout2 ++
                    (if v.modifiesFlags then ["flags"] else [])
                  args_in_out := aio2
                  datatype := buildDatatype st
                  index := st.index
                  immediate := st.imm } : AInst)))) = _
  simp only [hin, hout, hio, Option.some_bind]

/-- C6 (amended): for a variant whose register placeholders are all
declared operands and whose datatype tokens are well-formed, and a line
whose register operands are written concretely (letter plus digits),
emission inverts parsing: `write` on the parse result succeeds and
re-parsing the emitted line recovers the same operand lists, datatype,
index and immediate.  (For symbolic operands such as `x<tmp>` the round
trip fails; see the counterexample.) -/
theorem C6_write_parse_amended {v : Variant} {line : List LineTok} {inst : AInst}
    (hparse : AArch64Instruction.parse v line = some inst)
    (hconc : concreteMatch v.pattern line = true)
    (hcov : patternCovered v = true)
    (hwf : dtWF v.pattern = true) :
    ∃ lineW, AArch64Instruction.write v inst = some lineW ∧
      AArch64Instruction.parse v lineW = some inst := by
  obtain ⟨st, ain, aout, aio, hm, hin, hout, hio, hinst⟩ := parse_inv hparse
  have hok : StOK st :=
    matchPattern_StOK v.pattern line initSt st hconc hm StOK_init
  have hspec := substTok_spec hm hok hcov hwf hin hout hio hinst
  obtain ⟨lineW, hw⟩ := mapM_option_isSome (substTok v inst) v.pattern
    (fun p hp => by obtain ⟨tok, htok, -⟩ := hspec p hp; simp [htok])
  refine ⟨lineW, hw, ?_⟩
  have hf : List.Forall₂ (TokSpec st) v.pattern lineW :=
    forall2_of_mapM_spec hw (fun p hp tok htok => by
      obtain ⟨tok2, htok2, hts⟩ := hspec p hp
      have he : some tok2 = some tok := htok2.symm.trans htok
      cases he
      exact hts)
  obtain ⟨st1, hm1⟩ := rematch_exists st v.pattern lineW hf initSt
  have hpreserve : ∀ n : String, (regValue st n).isSome = true →
      regValue st1 n = regValue st n := by
    intro n hsome
    obtain ⟨a, ha⟩ := Option.isSome_iff_exists.mp hsome
    obtain ⟨ty, cap, hty, hcap, -⟩ := regValue_inv ha
    have hmem : PatTok.reg n ∈ v.pattern := by
      by_contra hnm
      have h0 := (matchPattern_regs n v.pattern line initSt st hm).2 hnm
      rw [hcap] at h0
      exact Option.noConfusion h0
    have h1 : st1.regs n = st.regs n :=
      (rematch_pattern_regs st n hf hm1).1 hmem
    unfold regValue
    rw [h1]
  have hin1 : v.inputs.mapM (regValue st1) = some ain :=
    (mapM_option_congr v.inputs (fun a ha =>
      hpreserve a (mapM_option_mem_isSome hin ha))).trans hin
  have hout1 : v.outputs.mapM (regValue st1) = some aout :=
    (mapM_option_congr v.outputs (fun a ha =>
      hpreserve a (mapM_option_mem_isSome hout ha))).trans hout
  have hio1 : v.in_outs.mapM (regValue st1) = some aio :=
    (mapM_option_congr v.in_outs (fun a ha =>
      hpreserve a (mapM_option_mem_isSome hio ha))).trans hio
  have hdP := rematch_pattern_dtP st hf hm1
  have hd0 := rematch_pattern_dt0 st hf hm1
  have hd1 := rematch_pattern_dt1 st hf hm1
  have hd2 := rematch_pattern_dt2 st hf hm1
  have hbd : buildDatatype st1 = buildDatatype st := by
    by_cases hP : PatTok.dtTok none ∈ v.pattern
    · obtain ⟨s, hs⟩ := Option.isSome_iff_exists.mp
        ((matchPattern_dtP v.pattern line initSt st hm).1 hP)
      have h1 : st1.dtP = some (pyUpper (pyLower s)) := by
        rw [hdP.1 hP, hs]
        rfl
      have hrt := dtStrict_roundtrip (hok.2.1 s hs)
      simp [buildDatatype, hs, h1, hrt.2]
    · have hP0 : st.dtP = none :=
        (matchPattern_dtP v.pattern line initSt st hm).2 hP
      have hP1 : st1.dtP = none := by
        rw [hdP.2 hP]
        rfl
      by_cases h0m : PatTok.dtTok (some 0) ∈ v.pattern
      · obtain ⟨s0, hs0⟩ := Option.isSome_iff_exists.mp
          ((matchPattern_dt0 v.pattern line initSt st hm).1 h0m)
        have h01 : st1.dt0 = some (pyUpper (pyLower s0)) := by
          rw [hd0.1 h0m, hs0]
          rfl
        have hrt0 := dtOpt_roundtrip (hok.2.2.1 s0 hs0)
        have hdt1eq : optLower st1.dt1 = optLower st.dt1 := by
          by_cases h1m : PatTok.dtTok (some 1) ∈ v.pattern
          · obtain ⟨s1, hs1⟩ := Option.isSome_iff_exists.mp
              ((matchPattern_dt1 v.pattern line initSt st hm).1 h1m)
            have h11 : st1.dt1 = some (pyUpper (pyLower s1)) := by
              rw [hd1.1 h1m, hs1]
              rfl
            have hrt1 := dtOpt_roundtrip (hok.2.2.2.1 s1 hs1)
            simp [optLower, hs1, h11, hrt1.2]
          · have ha : st.dt1 = none :=
              (matchPattern_dt1 v.pattern line initSt st hm).2 h1m
            have hb : st1.dt1 = none := by
              rw [hd1.2 h1m]
              rfl
            simp [optLower, ha, hb]
        have hdt2eq : optLower st1.dt2 = optLower st.dt2 := by
          by_cases h2m : PatTok.dtTok (some 2) ∈ v.pattern
          · obtain ⟨s2, hs2⟩ := Option.isSome_iff_exists.mp
              ((matchPattern_dt2 v.pattern line initSt st hm).1 h2m)
            have h21 : st1.dt2 = some (pyUpper (pyLower s2)) := by
              rw [hd2.1 h2m, hs2]
              rfl
            have hrt2 := dtOpt_roundtrip (hok.2.2.2.2.1 s2 hs2)
            simp [optLower, hs2, h21, hrt2.2]
          · have ha : st.dt2 = none :=
              (matchPattern_dt2 v.pattern line initSt st hm).2 h2m
            have hb : st1.dt2 = none := by
              rw [hd2.2 h2m]
              rfl
            simp [optLower, ha, hb]
        simp [buildDatatype, hP0, hP1, hs0, h01, hrt0.2, hdt1eq, hdt2eq]
      · have ha : st.dt0 = none :=
          (matchPattern_dt0 v.pattern line initSt st hm).2 h0m
        have hb : st1.dt0 = none := by
          rw [hd0.2 h0m]
          rfl
        simp [buildDatatype, hP0, hP1, ha, hb]
  have himm : st1.imm = st.imm := by
    by_cases hi : PatTok.immP ∈ v.pattern
    · exact (rematch_pattern_imm st hf hm1).1 hi
    · rw [(rematch_pattern_imm st hf hm1).2 hi,
        (matchPattern_imm v.pattern line initSt st hm).2 hi]
  have hidx : st1.index = st.index := by
    by_cases hi : PatTok.indexP ∈ v.pattern
    · exact (rematch_pattern_index st hf hm1).1 hi
    · rw [(rematch_pattern_index st hf hm1).2 hi,
        (matchPattern_index v.pattern line initSt st hm).2 hi]
  rw [hinst, parse_intro hm1 hin1 hout1 hio1, hbd, himm, hidx]

/-- C6, counterexample: parsing the symbolic line `eor w<tmp>, w1, w2`
succeeds (the symbolic destination is captured as `tmp`), but `write`
emits the bare word `tmp` for it, and re-parsing the emitted line fails
— emission is not the inverse of parsing on this input. -/
theorem C6_write_parse_counterexample :
    AArch64Instruction.parse eor_wform c6_sym_line = some
      { args_in := ["x1", "x2"]
        args_out := ["tmp"]
        args_in_out := []
        datatype := DtVal.noDt
        index := none
        immediate := none } ∧
    AArch64Instruction.write eor_wform
      { args_in := ["x1", "x2"]
        args_out := ["tmp"]
        args_in_out := []
        datatype := DtVal.noDt
        index := none
        immediate := none } = some
      [LineTok.lit "eor", LineTok.word "tmp", LineTok.lit ",",
       LineTok.regNum 'w' "1", LineTok.lit ",", LineTok.regNum 'w' "2"] ∧
    AArch64Instruction.parse eor_wform
      [LineTok.lit "eor", LineTok.word "tmp", LineTok.lit ",",
       LineTok.regNum 'w' "1", LineTok.lit ",", LineTok.regNum 'w' "2"] =
      none := by
  refine ⟨?_, ?_, ?_⟩ <;> rfl

/-- Witness for the amended C6 theorem: the concrete line
`add v0.4S, v1.4S, v2.4S` under the `vadd` variant round-trips. -/
theorem C6_write_parse_amended_witness :
    ∃ lineW, AArch64Instruction.write vadd
      { args_in := ["v1", "v2"]
        args_out := ["v0"]
        args_in_out := []
        datatype := DtVal.many ["4s", "4s", "4s"]
        index := none
        immediate := none } = some lineW ∧
      AArch64Instruction.parse vadd lineW = some
        { args_in := ["v1", "v2"]
          args_out := ["v0"]
          args_in_out := []
          datatype := DtVal.many ["4s", "4s", "4s"]
          index := none
          immediate := none } :=
  C6_write_parse_amended
    (show AArch64Instruction.parse vadd c6_concrete_line = some
      { args_in := ["v1", "v2"]
        args_out := ["v0"]
        args_in_out := []
        datatype := DtVal.many ["4s", "4s", "4s"]
        index := none
        immediate := none } by decide)
    (by decide) (by decide) (by decide)

end SlothyModel
